import Mathlib

/-!
Verification model of the vivarium simulation core
(`vivarium/core/experiment.py`, `vivarium/core/repository.py`).

Python dynamic values are modelled by the inductive `PVal`; Python floats
are idealised as rationals with a separate constructor for `float('inf')`.
All stateful Python methods are embedded as functions that return the
mutated structure; a raised Python exception is modelled by an `Option Err`
component that carries the error while the structure component keeps the
mutations performed before the raise (matching CPython, where in-place
mutations survive a propagating exception).
-/

/-- Error type for modelled Python exceptions (`Exception`, `KeyError`,
`AttributeError`, `TypeError` are not distinguished beyond their message). -/
abbrev Err := String

mutual

/-- Model of a Python runtime value as stored in and moved through the
state tree: `None`, booleans, ints, finite floats (as `ℚ`), `float('inf')`,
strings, `pint` unit quantities (magnitude plus unit name), numpy arrays
(as rational vectors), process handles (identity plus `is_deriver` flag),
lists and dicts. -/
inductive PVal where
  | pnone : PVal
  | pbool (b : Bool) : PVal
  | pint (n : ℤ) : PVal
  | pfloat (q : ℚ) : PVal
  | pinf : PVal
  | pstr (s : String) : PVal
  | pquant (mag : ℚ) (unit : String) : PVal
  | parr (xs : List ℚ) : PVal
  | pproc (pid : ℕ) (deriver : Bool) : PVal
  | plist (xs : PList) : PVal
  | pdict (m : PMap) : PVal
  deriving DecidableEq

/-- A Python list of `PVal`s. -/
inductive PList where
  | nil : PList
  | cons (hd : PVal) (tl : PList) : PList
  deriving DecidableEq

/-- A Python dict keyed by strings, in insertion order. -/
inductive PMap where
  | nil : PMap
  | cons (k : String) (v : PVal) (rest : PMap) : PMap
  deriving DecidableEq

end

namespace PMap

/-- `d.get(k)` / `k in d` lookup on a Python dict. -/
def lookup : PMap → String → Option PVal
  | .nil, _ => none
  | .cons k v rest, key => if k = key then some v else lookup rest key

/-- Number of entries. -/
def length : PMap → ℕ
  | .nil => 0
  | .cons _ _ rest => length rest + 1

/-- Key membership, `k in d`. -/
def hasKey (m : PMap) (k : String) : Bool :=
  (m.lookup k).isSome

/-- The keys, in insertion order. -/
def keys : PMap → List String
  | .nil => []
  | .cons k _ rest => k :: keys rest

end PMap

mutual

/-- Python `==` between two runtime values: numeric types (`bool`, `int`,
`float`) compare by numeric value across types, dicts compare as finite
maps, lists pointwise.  Quantities compare by magnitude and unit name
(cross-unit conversion is not modelled); process handles compare by
identity. -/
def pyEq : PVal → PVal → Bool
  | .pnone, .pnone => true
  | .pbool a, .pbool b => a == b
  | .pbool a, .pint n => (if a then (1 : ℤ) else 0) == n
  | .pint n, .pbool a => n == (if a then (1 : ℤ) else 0)
  | .pbool a, .pfloat q => (if a then (1 : ℚ) else 0) == q
  | .pfloat q, .pbool a => q == (if a then (1 : ℚ) else 0)
  | .pint n, .pint m => n == m
  | .pint n, .pfloat q => (n : ℚ) == q
  | .pfloat q, .pint n => q == (n : ℚ)
  | .pfloat q, .pfloat r => q == r
  | .pinf, .pinf => true
  | .pstr a, .pstr b => a == b
  | .pquant m u, .pquant m' u' => m == m' && u == u'
  | .parr a, .parr b => a == b
  | .pproc i _, .pproc j _ => i == j
  | .plist a, .plist b => pyEqList a b
  | .pdict a, .pdict b => pyEqMap a b
  | _, _ => false

/-- Pointwise list equality. -/
def pyEqList : PList → PList → Bool
  | .nil, .nil => true
  | .cons a as, .cons b bs => pyEq a b && pyEqList as bs
  | _, _ => false

/-- Python dict equality: same size and every entry of the first dict
matches in the second. -/
def pyEqMap (a b : PMap) : Bool :=
  a.length == b.length && pyEqSub a b

/-- Every entry of `a` is present in `b` with a `pyEq`-equal value. -/
def pyEqSub : PMap → PMap → Bool
  | .nil, _ => true
  | .cons k v rest, b =>
    (match b.lookup k with
      | some w => pyEq v w
      | none => false)
    && pyEqSub rest b

end

/-- Python `x == 0` (used by the `_default` conflict tie-break). -/
def pyIsZero (v : PVal) : Bool :=
  match v with
  | .pbool b => !b
  | .pint n => n == 0
  | .pfloat q => q == 0
  | _ => false

mutual

/-- Well-formedness of a modelled Python value: every dict (at any depth)
has duplicate-free keys.  Actual Python dicts cannot carry duplicate keys,
so every value arising from Python satisfies this. -/
def PVal.WF : PVal → Bool
  | .plist xs => PList.WF xs
  | .pdict m => m.keys.Nodup && PMap.WF m
  | _ => true

/-- All members well-formed. -/
def PList.WF : PList → Bool
  | .nil => true
  | .cons v rest => PVal.WF v && PList.WF rest

/-- All values well-formed (key nodup is checked at the `pdict` level). -/
def PMap.WF : PMap → Bool
  | .nil => true
  | .cons _ v rest => PVal.WF v && PMap.WF rest

end

-- Dividers (vivarium/core/repository.py)

/-- `divide_set`: returns `[state, state]`, no copying. -/
def divide_set (state : PVal) : PVal × PVal := (state, state)

/-- `divide_split` (vivarium/core/repository.py): integers split in half
with the remainder placed by `random.choice` (modelled by the `rng`
argument, `true` meaning the first daughter receives it); `float('inf')`
and the string `"Infinity"` are returned unchanged in both daughters;
finite floats and unit quantities are halved; any other value raises.
Python `int(state / 2)` truncates toward zero (`Int.tdiv`) and
`state % 2` is the floor modulus (`Int.emod`). -/
def divide_split (rng : Bool) (state : PVal) : Except Err (PVal × PVal) :=
  match state with
  | .pbool b =>
    -- Python bools are ints (`isinstance(True, int)`), so they take the
    -- integer branch.
    let n : ℤ := if b then 1 else 0
    let remainder := Int.emod n 2
    let half := Int.tdiv n 2
    if rng then .ok (.pint (half + remainder), .pint half)
    else .ok (.pint half, .pint (half + remainder))
  | .pint n =>
    let remainder := Int.emod n 2
    let half := Int.tdiv n 2
    if rng then .ok (.pint (half + remainder), .pint half)
    else .ok (.pint half, .pint (half + remainder))
  | .pinf => .ok (.pinf, .pinf)
  | .pstr s =>
    if s = "Infinity" then .ok (.pstr s, .pstr s)
    else .error "can not divide state"
  | .pfloat q => .ok (.pfloat (q / 2), .pfloat (q / 2))
  | .pquant m u => .ok (.pquant (m / 2) u, .pquant (m / 2) u)
  | _ => .error "can not divide state"

/-- `divide_zero`: `[0, 0]` regardless of input. -/
def divide_zero (_state : PVal) : PVal × PVal := (.pint 0, .pint 0)

namespace PMap

/-- `list(d.items())[n:]` -/
def drop : PMap → ℕ → PMap
  | m, 0 => m
  | .nil, _ => .nil
  | .cons _ _ rest, n + 1 => drop rest n

/-- `list(d.items())[:n]` -/
def take : PMap → ℕ → PMap
  | _, 0 => .nil
  | .nil, _ => .nil
  | .cons k v rest, n + 1 => .cons k v (take rest n)

end PMap

/-- `divide_split_dict`: `None` counts as the empty dict; the first
daughter receives the second half of the entries (from index `len // 2`
on) and the second daughter the first half; non-dict input raises
(`state.items()` fails). -/
def divide_split_dict (state : PVal) : Except Err (PVal × PVal) :=
  match state with
  | .pnone => .ok (.pdict .nil, .pdict .nil)
  | .pdict m => .ok (.pdict (m.drop (m.length / 2)), .pdict (m.take (m.length / 2)))
  | _ => .error "state has no items"

-- Names resolvable in the schema registries (vivarium/core/repository.py).
-- The registries are closed tables; caller-supplied bare functions are not
-- modelled (no claim involves one).

/-- Keys of `updater_library`. -/
inductive UpdaterName where
  | accumulate : UpdaterName
  | set : UpdaterName
  | merge : UpdaterName
  deriving DecidableEq

/-- Keys of `divider_library`. -/
inductive DividerName where
  | set : DividerName
  | split : DividerName
  | split_dict : DividerName
  | zero : DividerName
  deriving DecidableEq

/-- Keys of `serializer_library`. -/
inductive SerializerName where
  | numpy : SerializerName
  deriving DecidableEq

/-- A `_divider` schema entry: either a divider name, or a dict
`{divider, topology}` whose topology maps auxiliary keys to store paths
(a path step may be `".."`). -/
inductive DividerDecl where
  | named (n : DividerName) : DividerDecl
  | withTopo (n : DividerName) (topology : List (String × List String)) : DividerDecl
  deriving DecidableEq

mutual

/-- One topology entry for a port: either a store path (a tuple of steps,
`".."` meaning parent), or a nested dict of sub-port entries optionally
carrying a `_path` redirection. -/
inductive Topo where
  | path (p : List String) : Topo
  | sub (redirect : Option (List String)) (entries : TopoMap) : Topo
  deriving DecidableEq

/-- A topology dict: port name to entry, in insertion order. -/
inductive TopoMap where
  | nil : TopoMap
  | cons (k : String) (t : Topo) (rest : TopoMap) : TopoMap
  deriving DecidableEq

end

namespace TopoMap

/-- Dict lookup. -/
def lookup : TopoMap → String → Option Topo
  | .nil, _ => none
  | .cons k t rest, key => if k = key then some t else lookup rest key

/-- Dict keys in insertion order. -/
def keys : TopoMap → List String
  | .nil => []
  | .cons k _ rest => k :: keys rest

/-- Dict assignment: replace in place or append. -/
def setKey : TopoMap → String → Topo → TopoMap
  | .nil, key, t => .cons key t .nil
  | .cons k t0 rest, key, t =>
    if k = key then .cons k t rest else .cons k t0 (setKey rest key t)

end TopoMap

/-- The leaf (non-recursive) schema keys of a config dict, i.e. exactly
`Store.schema_keys`: `_default`, `_updater`, `_value`, `_properties`,
`_emit`, `_serializer`.  An absent key is `none`; note `{'_default': None}`
is modelled as `some .pnone`, distinct from an absent key, matching
Python's `'_default' in config` test. -/
structure LeafCfg where
  default : Option PVal := none
  value : Option PVal := none
  updater : Option UpdaterName := none
  properties : Option PMap := none
  emit : Option Bool := none
  serializer : Option SerializerName := none
  deriving DecidableEq

/-- Does the dict carry any of the `schema_keys`? -/
def LeafCfg.present (l : LeafCfg) : Bool :=
  l.default.isSome || l.value.isSome || l.updater.isSome
    || l.properties.isSome || l.emit.isSome || l.serializer.isSome

mutual

/-- A config/schema dict (the argument of `Store.apply_config`):
the wildcard entry `*`, the reserved keys `_subschema`, `_subtopology`,
`_divider`, the leaf schema keys, and the remaining (child) keys. -/
inductive Config where
  | mk (star : Option Config) (subschema : Option Config)
      (subtopology : Option TopoMap) (divider : Option DividerDecl)
      (leaf : LeafCfg) (children : ConfigMap) : Config

/-- Child configs keyed by name, in insertion order. -/
inductive ConfigMap where
  | nil : ConfigMap
  | cons (k : String) (c : Config) (rest : ConfigMap) : ConfigMap

end

namespace Config

def star : Config → Option Config
  | .mk s _ _ _ _ _ => s

def subschema : Config → Option Config
  | .mk _ s _ _ _ _ => s

def subtopology : Config → Option TopoMap
  | .mk _ _ s _ _ _ => s

def divider : Config → Option DividerDecl
  | .mk _ _ _ d _ _ => d

def leaf : Config → LeafCfg
  | .mk _ _ _ _ l _ => l

def children : Config → ConfigMap
  | .mk _ _ _ _ _ c => c

/-- The empty config dict `{}`. -/
def empty : Config := .mk none none none none {} .nil

/-- Python truthiness of the config dict (`{}` is falsy). -/
def isEmpty (c : Config) : Bool :=
  c.star.isNone && c.subschema.isNone && c.subtopology.isNone
    && c.divider.isNone && !c.leaf.present && (c.children matches .nil)

/-- `self.schema_keys & set(config.keys())`: does the config carry any of
the leaf schema keys? -/
def hasSchemaKeys (c : Config) : Bool :=
  c.leaf.present

end Config

namespace ConfigMap

def lookup : ConfigMap → String → Option Config
  | .nil, _ => none
  | .cons k c rest, key => if k = key then some c else lookup rest key

def keys : ConfigMap → List String
  | .nil => []
  | .cons k _ rest => k :: keys rest

/-- Dict assignment: replace in place or append. -/
def setKey : ConfigMap → String → Config → ConfigMap
  | .nil, key, c => .cons key c .nil
  | .cons k c0 rest, key, c =>
    if k = key then .cons k c rest else .cons k c0 (setKey rest key c)

end ConfigMap

namespace PMap

/-- Python dict assignment `d[k] = v`: replace in place or append. -/
def setKey : PMap → String → PVal → PMap
  | .nil, key, v => .cons key v .nil
  | .cons k v0 rest, key, v =>
    if k = key then .cons k v rest else .cons k v0 (setKey rest key v)

end PMap

/-- Modelled from the spec: `vivarium.library.dict_utils.deep_merge` is not
under `src/`; the spec describes deep-merging daughter state onto a
captured template (§4.1) and schema metadata merging.  Standard semantics:
for every entry of the second dict, if both sides hold dicts, merge
recursively in place, otherwise overwrite (or append) with the new value. -/
def deepMergeP : PMap → PMap → PMap
  | dct, .nil => dct
  | dct, .cons k v rest =>
    let dct' :=
      match dct.lookup k, v with
      | some (.pdict a), .pdict b => dct.setKey k (.pdict (deepMergeP a b))
      | _, _ => dct.setKey k v
    deepMergeP dct' rest

/-- Modelled from the spec: `deep_merge` lifted to arbitrary values as used
by the `_divide` directive, where the captured template or a divided share
may be a bare (non-dict) value; a non-dict left operand is overwritten
entry-by-entry like an empty dict would be, matching `dct[k] = v`
assignment semantics only when both sides are dicts — when the right side
is not a dict the right side wins wholesale. -/
def deepMergeV (a b : PVal) : PVal :=
  match a, b with
  | .pdict x, .pdict y => .pdict (deepMergeP x y)
  | _, .pdict y => .pdict (deepMergeP .nil y)
  | _, _ => b

/-- Modelled from the spec: `deep_merge` on two topology dicts
(`merge_subtopology`).  Nested dicts merge recursively, `_path`
redirections and plain paths overwrite. -/
def deepMergeTopoMap : TopoMap → TopoMap → TopoMap
  | a, .nil => a
  | a, .cons k t rest =>
    let a' :=
      match a.lookup k, t with
      | some (.sub r0 e0), .sub r1 e1 =>
        a.setKey k (.sub (r1.orElse fun _ => r0) (deepMergeTopoMap e0 e1))
      | _, _ => a.setKey k t
    deepMergeTopoMap a' rest

/-- The `deep_merge` rule for an optional `_default`/`_value` payload:
dicts on both sides merge recursively, otherwise the second side wins
when present. -/
def mergeDV (x y : Option PVal) : Option PVal :=
  match x, y with
  | some (.pdict a), some (.pdict b) => some (.pdict (deepMergeP a b))
  | x, y => y.orElse fun _ => x

mutual

/-- Modelled from the spec: `deep_merge` on two config dicts
(`apply_subschema_config`, `update_subschema`).  Keys holding dicts on both
sides (`*`, `_subschema`, `_subtopology`, `_properties`, dict-valued
`_default`/`_value`, child configs) merge recursively; every other key is
overwritten by the second config when present there. -/
def deepMergeConfig : Config → Config → Config
  | .mk astar asub atopo adiv aleaf ach, .mk bstar bsub btopo bdiv bleaf bch =>
    .mk
      (match astar, bstar with
        | some x, some y => some (deepMergeConfig x y)
        | x, y => y.orElse fun _ => x)
      (match asub, bsub with
        | some x, some y => some (deepMergeConfig x y)
        | x, y => y.orElse fun _ => x)
      (match atopo, btopo with
        | some x, some y => some (deepMergeTopoMap x y)
        | x, y => y.orElse fun _ => x)
      (bdiv.orElse fun _ => adiv)
      { default := mergeDV aleaf.default bleaf.default
        value := mergeDV aleaf.value bleaf.value
        updater := bleaf.updater.orElse fun _ => aleaf.updater
        properties :=
          (match aleaf.properties, bleaf.properties with
            | some x, some y => some (deepMergeP x y)
            | x, y => y.orElse fun _ => x)
        emit := bleaf.emit.orElse fun _ => aleaf.emit
        serializer := bleaf.serializer.orElse fun _ => aleaf.serializer }
      (deepMergeCM ach bch)

/-- Child-config part of `deepMergeConfig`. -/
def deepMergeCM (a : ConfigMap) : ConfigMap → ConfigMap
  | .nil => a
  | .cons k c rest =>
    let a' :=
      match ConfigMap.lookup a k with
      | some c0 => ConfigMap.setKey a k (deepMergeConfig c0 c)
      | none => ConfigMap.setKey a k c
    deepMergeCM a' rest

end

-- The Store tree (vivarium/core/experiment.py, class Store).
--
-- Python nodes carry a non-owning `outer` parent reference; the model is
-- rooted instead: operations take the tree root and address nodes by their
-- absolute path (a list of child keys), resolving `".."` by dropping the
-- last component, which is exactly what chasing `outer` computes.

/-- The non-recursive attributes of a store node, with the initial values
assigned by `Store.__init__` as defaults.  Python `None` in `default` and
`value` is `.pnone`. -/
structure Attrs where
  subschema : Config := .empty
  subtopology : TopoMap := .nil
  properties : PMap := .nil
  default : PVal := .pnone
  updater : Option UpdaterName := none
  value : PVal := .pnone
  units : Option String := none
  divider : Option DividerDecl := none
  emit : Bool := false
  sources : List (List String × Config) := []
  deleted : Bool := false
  leaf : Bool := false
  serializer : Option SerializerName := none

mutual

/-- A node of the state tree: attributes plus named children (`inner`). -/
inductive Store where
  | mk (attrs : Attrs) (inner : StoreMap) : Store

/-- The `inner` children map, in insertion order. -/
inductive StoreMap where
  | nil : StoreMap
  | cons (k : String) (v : Store) (rest : StoreMap) : StoreMap

end

namespace StoreMap

def lookup : StoreMap → String → Option Store
  | .nil, _ => none
  | .cons k v rest, key => if k = key then some v else lookup rest key

def keys : StoreMap → List String
  | .nil => []
  | .cons k _ rest => k :: keys rest

/-- Dict assignment: replace in place or append. -/
def setKey : StoreMap → String → Store → StoreMap
  | .nil, key, v => .cons key v .nil
  | .cons k v0 rest, key, v =>
    if k = key then .cons k v rest else .cons k v0 (setKey rest key v)

/-- `del d[k]` -/
def removeKey : StoreMap → String → StoreMap
  | .nil, _ => .nil
  | .cons k v rest, key =>
    if k = key then rest else .cons k v (removeKey rest key)

def isNil : StoreMap → Bool
  | .nil => true
  | .cons _ _ _ => false

end StoreMap

namespace Store

def attrs : Store → Attrs
  | .mk a _ => a

def inner : Store → StoreMap
  | .mk _ i => i

def modifyAttrs : Store → (Attrs → Attrs) → Store
  | .mk a i, f => .mk (f a) i

def withInner : Store → StoreMap → Store
  | .mk a _, i => .mk a i

end Store

/-- A freshly constructed node before any config is applied
(the field initializations of `Store.__init__`). -/
def emptyStore : Store := .mk {} .nil

/-- Assignment into the `sources` map (keys are source paths). -/
def setSource (ss : List (List String × Config)) (src : List String)
    (c : Config) : List (List String × Config) :=
  match ss with
  | [] => [(src, c)]
  | (k, c0) :: rest =>
    if k = src then (k, c) :: rest else (k, c0) :: setSource rest src c

/-- `Store.check_default`: keep the current default when the new one is a
conflicting zero against a nonzero current value; otherwise the new one
wins (a mere log message records the conflict). -/
def check_default (cur new : PVal) : PVal :=
  if cur = .pnone then new
  else if pyEq new cur then new
  else if pyIsZero new && !(pyIsZero cur) then cur
  else new

/-- `Store.check_value`: a conflicting explicit `_value` raises. -/
def check_value (cur new : PVal) : Except Err PVal :=
  if cur = .pnone then .ok new
  else if pyEq new cur then .ok new
  else .error "_value schema conflict"

/-- The reserved-key preamble of `apply_config`: process `*`,
`_subschema`, `_subtopology` and `_divider` before the leaf/branch
dispatch. -/
def applyConfigSpecials (cstar csub : Option Config) (ctopo : Option TopoMap)
    (cdiv : Option DividerDecl) (source : Option (List String)) (s : Store) : Store :=
  let s :=
    match cstar with
    | some q => s.modifyAttrs fun a => { a with subschema := deepMergeConfig a.subschema q }
    | none => s
  let s :=
    match csub with
    | some q =>
      let s :=
        match source with
        | some src => s.modifyAttrs fun a => { a with sources := setSource a.sources src q }
        | none => s
      s.modifyAttrs fun a => { a with subschema := deepMergeConfig a.subschema q }
    | none => s
  let s :=
    match ctopo with
    | some q => s.modifyAttrs fun a => { a with subtopology := deepMergeTopoMap a.subtopology q }
    | none => s
  match cdiv with
  | some d => s.modifyAttrs fun a => { a with divider := some d }
  | none => s

/-- The `_default` handling of the `apply_config` leaf branch: tie-break
against the current default, record units for a quantity, auto-attach the
numpy serializer for an array. -/
def applyLeafDefault (cleaf : LeafCfg) (s : Store) : Store :=
  match cleaf.default with
  | some d =>
    let d' := check_default s.attrs.default d
    let s := s.modifyAttrs fun a => { a with default := d' }
    let s :=
      match d' with
      | .pquant _ u => s.modifyAttrs fun a => { a with units := some u }
      | _ => s
    match d' with
    | .parr _ => s.modifyAttrs fun a => { a with serializer := some (a.serializer.getD .numpy) }
    | _ => s
  | none => s

/-- The trailing assignments of the `apply_config` leaf branch: updater
resolution (`config.get('_updater', self.updater or 'accumulate')`),
properties merge, emit flag, source recording. -/
def applyLeafRest (cleaf : LeafCfg) (cchildren : ConfigMap)
    (source : Option (List String)) (s : Store) : Store :=
  let s := s.modifyAttrs fun a =>
    { a with updater := some (cleaf.updater.getD (a.updater.getD .accumulate)) }
  let s := s.modifyAttrs fun a =>
    { a with properties := deepMergeP a.properties (cleaf.properties.getD .nil) }
  let s := s.modifyAttrs fun a => { a with emit := cleaf.emit.getD a.emit }
  match source with
  | some src => s.modifyAttrs fun a =>
      { a with sources := setSource a.sources src (.mk none none none none cleaf cchildren) }
  | none => s

/-- The leaf branch of `apply_config` (the config carries schema keys):
raises on a node with children, otherwise marks the node as a leaf and
processes `_serializer`, `_default`, `_value` (whose conflict check can
raise), `_updater`, `_properties`, `_emit` in source order. -/
def applyConfigLeaf (cleaf : LeafCfg) (cchildren : ConfigMap)
    (source : Option (List String)) (s : Store) : Store × Option Err :=
  if !s.inner.isNil then
    (s, some "trying to assign leaf values to a branch")
  else
    let s := s.modifyAttrs fun a => { a with leaf := true }
    let s :=
      match cleaf.serializer with
      | some ser => s.modifyAttrs fun a => { a with serializer := some ser }
      | none => s
    let s := applyLeafDefault cleaf s
    match cleaf.value with
    | some v =>
      (match check_value s.attrs.value v with
        | .error e => (s, some e)
        | .ok v' =>
          let s := s.modifyAttrs fun a => { a with value := v' }
          let s :=
            match v' with
            | .pquant _ u => s.modifyAttrs fun a => { a with units := some u }
            | _ => s
          (applyLeafRest cleaf cchildren source s, none))
    | none => (applyLeafRest cleaf cchildren source s, none)

mutual

/-- `Store.apply_config(config, source)`.  Returns the mutated node
together with `some` error if the Python code would raise; the node
component carries all mutations performed before the raise. -/
def applyConfigS (c : Config) (source : Option (List String)) (s : Store) :
    Store × Option Err :=
  match c with
  | .mk cstar csub ctopo cdiv cleaf cchildren =>
    let s := applyConfigSpecials cstar csub ctopo cdiv source s
    if cleaf.present then applyConfigLeaf cleaf cchildren source s
    else
      if s.attrs.leaf && !(cchildren matches .nil) then
        (s, some "trying to assign create inner for leaf node")
      else
        let s := s.modifyAttrs fun a => { a with value := .pnone }
        match applyConfigCM cchildren source s.inner with
        | (sm, e) => (s.withInner sm, e)

/-- The child-key loop of `apply_config`: existing children receive the
child config recursively, new children are constructed from it
(`Store(child, outer=self, source=source)`). -/
def applyConfigCM (cm : ConfigMap) (source : Option (List String)) (sm : StoreMap) :
    StoreMap × Option Err :=
  match cm with
  | .nil => (sm, none)
  | .cons k cc rest =>
    match StoreMap.lookup sm k with
    | none =>
      (match applyConfigS cc source emptyStore with
        | (_, some e) => (sm, some e)
        | (child, none) => applyConfigCM rest source (sm.setKey k child))
    | some child =>
      (match applyConfigS cc source child with
        | (child', some e) => (sm.setKey k child', some e)
        | (child', none) => applyConfigCM rest source (sm.setKey k child'))

end

/-- `Store(config)`: construct a fresh node by applying a config. -/
def mkStore (c : Config) : Store × Option Err := applyConfigS c none emptyStore

/-- The leaf/children conflict test of the `apply_config` branch case. -/
def branchGuard (cch : ConfigMap) (s : Store) : Bool :=
  s.attrs.leaf && !(cch matches ConfigMap.nil)

/-- Descend from the root along an absolute address. -/
def nodeAt : Store → List String → Option Store
  | s, [] => some s
  | s, k :: rest =>
    match s.inner.lookup k with
    | some c => nodeAt c rest
    | none => none

/-- Rebuild the root with the subtree at an absolute address transformed;
the root is returned unchanged when the address does not exist. -/
def updateAt : Store → List String → (Store → Store) → Store
  | s, [], f => f s
  | s, k :: rest, f =>
    match s.inner.lookup k with
    | some c => s.withInner (s.inner.setKey k (updateAt c rest f))
    | none => s

/-- `Store.get_path` viewed from the node at absolute address `cur`:
resolve the relative steps (`".."` climbs to the parent, or fails at the
root since `outer` is `None`) to the absolute address of the target,
`none` when any step does not exist. -/
def resolvePath (root : Store) : List String → List String → Option (List String)
  | cur, [] => some cur
  | cur, step :: rest =>
    if step = ".." then
      match cur with
      | [] => none
      | _ => resolvePath root cur.dropLast rest
    else
      match nodeAt root (cur ++ [step]) with
      | some _ => resolvePath root (cur ++ [step]) rest
      | none => none

/-- `Store.get_path` returning the node itself. -/
def getPath (root : Store) (cur rel : List String) : Option Store :=
  (resolvePath root cur rel).bind (nodeAt root)

mutual

/-- `Store.get_value(condition, f)`: values of the subtree in tree shape.
`ex = true` models the `_divide` call with
`condition = lambda child: not isinstance(child.value, Process)` (and
`f = deepcopy`, the identity here); `ex = false` is the plain call. -/
def getValue (ex : Bool) : Store → PVal
  | .mk a i =>
    match i with
    | .nil => if !a.subschema.isEmpty then .pdict .nil else a.value
    | .cons k c rest => .pdict (getValueMap ex (.cons k c rest))

/-- Child part of `get_value`: children failing the condition are skipped. -/
def getValueMap (ex : Bool) : StoreMap → PMap
  | .nil => .nil
  | .cons k c rest =>
    if ex && (c.attrs.value matches .pproc _ _) then getValueMap ex rest
    else .cons k (getValue ex c) (getValueMap ex rest)

end

/-- `Store.establish_path(path, config, source)` from the node at absolute
address `cur`: create missing intermediate nodes (`Store({}, outer=self)`,
which is exactly `emptyStore`), resolve `".."` against the parent (raising
at the root), and apply the config at the terminal node, whose absolute
address is returned. -/
def establishPath (root : Store) (cur : List String) :
    List String → Config → Option (List String) → Store × Except Err (List String)
  | [], c, source =>
    (match nodeAt root cur with
      | none => (root, .error "internal: dangling address")
      | some node =>
        match applyConfigS c source node with
        | (node', some e) => (updateAt root cur fun _ => node', .error e)
        | (node', none) => (updateAt root cur fun _ => node', .ok cur))
  | step :: rest, c, source =>
    if step = ".." then
      match cur with
      | [] => (root, .error "outer does not exist for path")
      | _ => establishPath root cur.dropLast rest c source
    else
      match nodeAt root (cur ++ [step]) with
      | some _ => establishPath root (cur ++ [step]) rest c source
      | none =>
        let root' := updateAt root cur fun n => n.withInner (n.inner.setKey step emptyStore)
        establishPath root' (cur ++ [step]) rest c source

mutual

/-- `Store.set_value(value)`: write values directly (no updaters).  At a
node with children or a subschema the value must be a dict; unknown keys
are instantiated from the subschema when one exists and silently ignored
otherwise. -/
def setValueS (s : Store) (v : PVal) : Store × Option Err :=
  if !s.inner.isNil || !s.attrs.subschema.isEmpty then
    match v with
    | .pdict m => setValueM s m
    | _ => (s, some "set_value: value has no items")
  else
    (s.modifyAttrs fun a => { a with value := v }, none)

/-- The entry loop of `set_value`. -/
def setValueM (s : Store) : PMap → Store × Option Err
  | .nil => (s, none)
  | .cons child iv rest =>
    let made : Store × Option Err :=
      match s.inner.lookup child with
      | some _ => (s, none)
      | none =>
        if !s.attrs.subschema.isEmpty then
          match applyConfigS s.attrs.subschema none emptyStore with
          | (_, some e) => (s, some e)
          | (node, none) => (s.withInner (s.inner.setKey child node), none)
        else (s, none)
    match made with
    | (s', some e) => (s', some e)
    | (s', none) =>
      match s'.inner.lookup child with
      | none => setValueM s' rest
      | some c =>
        match setValueS c iv with
        | (c', some e) => (s'.withInner (s'.inner.setKey child c'), some e)
        | (c', none) => setValueM (s'.withInner (s'.inner.setKey child c')) rest

end

mutual

/-- `Store.apply_defaults()`: childless nodes whose value is `None`
receive their default; nodes with children recurse. -/
def applyDefaultsS : Store → Store
  | .mk a i =>
    match i with
    | .nil => if a.value = .pnone then .mk { a with value := a.default } .nil else .mk a .nil
    | .cons k c rest => .mk a (applyDefaultsM (.cons k c rest))

/-- Child part of `apply_defaults`. -/
def applyDefaultsM : StoreMap → StoreMap
  | .nil => .nil
  | .cons k c rest => .cons k (applyDefaultsS c) (applyDefaultsM rest)

end

mutual

/-- `Store.mark_deleted()`: tombstone this node and its whole subtree. -/
def markDeletedS : Store → Store
  | .mk a i => .mk { a with deleted := true } (markDeletedM i)

/-- Child part of `mark_deleted`. -/
def markDeletedM : StoreMap → StoreMap
  | .nil => .nil
  | .cons k c rest => .cons k (markDeletedS c) (markDeletedM rest)

end

/-- `Store.delete_path(path)` from the node at absolute address `cur`.
Empty path: drop all children and the value of the node itself (which is
returned, not detached).  Otherwise resolve the parent of the target
(`get_path(path[:-1])`, raising `AttributeError` when it resolves to
`None`), remove the final key if present, and return the detached subtree
with every node tombstoned; a missing final key is a silent no-op.
Result: (new root, `lost` result of the call, error). -/
def deletePath (root : Store) (cur path : List String) :
    Store × Option Store × Option Err :=
  match path with
  | [] =>
    let root' := updateAt root cur fun n =>
      (n.withInner .nil).modifyAttrs fun a => { a with value := .pnone }
    (root', nodeAt root' cur, none)
  | _ :: _ =>
    match resolvePath root cur path.dropLast with
    | none => (root, none, some "AttributeError: NoneType has no inner")
    | some tgt =>
      match path.getLast? with
      | none => (root, none, some "internal: empty path")
      | some remove =>
        match (nodeAt root tgt).bind fun n => n.inner.lookup remove with
        | none => (root, none, none)
        | some lost =>
          let root' := updateAt root tgt fun n => n.withInner (n.inner.removeKey remove)
          (root', some (markDeletedS lost), none)

/-- Elementwise `.tolist()` of a modelled numpy array. -/
def floatsToPList : List ℚ → PList
  | [] => .nil
  | q :: rest => .cons (.pfloat q) (floatsToPList rest)

mutual

/-- `Store.emit_data()`: nodes with children collect every child emission
that is not `None` (the `or child_data == 0` disjunct is vacuous since
`None == 0` is false); childless nodes yield their value when `emit` is
set — serialized if a serializer is present, `pull_data()` (i.e. `{}`) for
process handles, converted to magnitude when units are recorded — and
`None` (here `none`) otherwise. -/
def emitDataS : Store → Except Err (Option PVal)
  | .mk a i =>
    match i with
    | .cons k c rest => (emitDataM (.cons k c rest)).map fun m => some (.pdict m)
    | .nil =>
      if a.emit then
        match a.serializer with
        | some .numpy =>
          match a.value with
          | .parr xs => .ok (some (.plist (floatsToPList xs)))
          | _ => .error "AttributeError: value has no tolist"
        | none =>
          match a.value with
          | .pproc _ _ => .ok (some (.pdict .nil))
          | v =>
            match a.units with
            | some u =>
              (match v with
                | .pquant mag u' =>
                  if u' = u then .ok (some (.pfloat mag))
                  else .error "unit conversion not modelled"
                | _ => .error "AttributeError: value has no to")
            | none => .ok (some v)
      else .ok none

/-- Child part of `emit_data`. -/
def emitDataM : StoreMap → Except Err PMap
  | .nil => .ok .nil
  | .cons k c rest =>
    match emitDataS c with
    | .error e => .error e
    | .ok none => emitDataM rest
    | .ok (some v) => (emitDataM rest).map (.cons k v ·)

end

/-- `Store.get_values(paths)` resolved at absolute address `cur`:
`get_path(path).get_value()` per entry; a dangling path raises
(`AttributeError` on `None`). -/
def getValuesAt (root : Store) (cur : List String) :
    List (String × List String) → Except Err PMap
  | [] => .ok .nil
  | (k, p) :: rest =>
    match getPath root cur p with
    | none => .error "AttributeError: NoneType has no get_value"
    | some node =>
      (getValuesAt root cur rest).map (.cons k (getValue false node) ·)

/-- Invoke a named divider from `divider_library` on a value, consuming
one `random.choice` bit exactly when `divide_split` reaches its integer
branch. -/
def applyDividerNamed (n : DividerName) (v : PVal) (rand : List Bool) :
    Except Err (PVal × PVal) × List Bool :=
  match n with
  | .set => (.ok (divide_set v), rand)
  | .split =>
    (match v with
      | .pint _ => (divide_split (rand.headD true) v, rand.tail)
      | .pbool _ => (divide_split (rand.headD true) v, rand.tail)
      | _ => (divide_split true v, rand))
  | .split_dict => (divide_split_dict v, rand)
  | .zero => (.ok (divide_zero v), rand)

mutual

/-- `Store.divide_value()` on the node `s` at absolute address `cur`:
a node with a divider applies it to `get_value()`; a `{divider, topology}`
divider first gathers auxiliary state through the parent
(`self.outer.get_values(topology)`, raising at the root) and then calls
the divider with two arguments — every divider in the closed
`divider_library` is unary, so the call itself raises `TypeError`;
a dividerless node with children divides each child and zips the results
into two parallel trees, skipping children that return `None`; a
dividerless childless node returns `None`. -/
def divideValueS (root : Store) (s : Store) (cur : List String) (rand : List Bool) :
    Except Err (Option (PVal × PVal)) × List Bool :=
  match s with
  | .mk a i =>
    match a.divider with
    | some (.named n) =>
      let (r, rand') := applyDividerNamed n (getValue false (.mk a i)) rand
      (r.map some, rand')
    | some (.withTopo _ topo) =>
      (match cur with
        | [] => (.error "AttributeError: outer is None", rand)
        | _ =>
          match getValuesAt root cur.dropLast topo with
          | .error e => (.error e, rand)
          | .ok _ => (.error "TypeError: divider takes 1 argument", rand))
    | none =>
      match i with
      | .nil => (.ok none, rand)
      | .cons k c rest =>
        match divideValueM root (.cons k c rest) cur rand with
        | (.error e, rand') => (.error e, rand')
        | (.ok (m1, m2), rand') => (.ok (some (.pdict m1, .pdict m2)), rand')

/-- Child part of `divide_value`. -/
def divideValueM (root : Store) :
    StoreMap → List String → List Bool → Except Err (PMap × PMap) × List Bool
  | .nil, _, rand => (.ok (.nil, .nil), rand)
  | .cons k c rest, cur, rand =>
    match divideValueS root c (cur ++ [k]) rand with
    | (.error e, rand') => (.error e, rand')
    | (.ok none, rand') => divideValueM root rest cur rand'
    | (.ok (some (d1, d2)), rand') =>
      match divideValueM root rest cur rand' with
      | (.error e, r2) => (.error e, r2)
      | (.ok (m1, m2), r2) => (.ok (.cons k d1 m1, .cons k d2 m2), r2)

end

-- Updaters (vivarium/core/repository.py)

/-- List concatenation on modelled Python lists. -/
def concatPList : PList → PList → PList
  | .nil, b => b
  | .cons x rest, b => .cons x (concatPList rest b)

/-- Python `a + b` on modelled values: numbers add (bools as ints, mixed
int/float gives float, infinity absorbs), strings and lists concatenate,
same-unit quantities add; anything else raises `TypeError` (cross-unit
quantity arithmetic is not modelled). -/
def pyAdd : PVal → PVal → Except Err PVal
  | .pint a, .pint b => .ok (.pint (a + b))
  | .pint a, .pfloat b => .ok (.pfloat (a + b))
  | .pfloat a, .pint b => .ok (.pfloat (a + b))
  | .pfloat a, .pfloat b => .ok (.pfloat (a + b))
  | .pbool a, .pbool b => .ok (.pint ((if a then 1 else 0) + if b then 1 else 0))
  | .pbool a, .pint b => .ok (.pint ((if a then 1 else 0) + b))
  | .pint a, .pbool b => .ok (.pint (a + if b then 1 else 0))
  | .pbool a, .pfloat b => .ok (.pfloat ((if a then 1 else 0) + b))
  | .pfloat a, .pbool b => .ok (.pfloat (a + if b then 1 else 0))
  | .pinf, .pint _ => .ok .pinf
  | .pinf, .pfloat _ => .ok .pinf
  | .pinf, .pbool _ => .ok .pinf
  | .pint _, .pinf => .ok .pinf
  | .pfloat _, .pinf => .ok .pinf
  | .pbool _, .pinf => .ok .pinf
  | .pinf, .pinf => .ok .pinf
  | .pstr a, .pstr b => .ok (.pstr (a ++ b))
  | .pquant a u, .pquant b u' =>
    if u = u' then .ok (.pquant (a + b) u) else .error "unit conversion not modelled"
  | .plist a, .plist b => .ok (.plist (concatPList a b))
  | _, _ => .error "TypeError: unsupported operand types for +"

/-- `update_accumulate(current, new) = current + new`. -/
def update_accumulate (cur new : PVal) : Except Err PVal := pyAdd cur new

/-- `update_set(current, new) = new`. -/
def update_set (_cur new : PVal) : Except Err PVal := .ok new

/-- The key loop of `update_merge`: the result has exactly the keys of
`current`; each is overwritten with `new_value.get(k)` (so `None` when
missing), except that a dict-valued `new_value[k]` is deep-merged onto
`dict(current[k])` (raising when `current[k]` is not a dict). -/
def mergeLoop (cur new : PMap) : Except Err PMap :=
  match cur with
  | .nil => .ok .nil
  | .cons k v rest =>
    match new.lookup k with
    | some (.pdict d) =>
      (match v with
        | .pdict vd => (mergeLoop rest new).map (.cons k (.pdict (deepMergeP vd d)) ·)
        | _ => .error "TypeError: dict(v) on non-dict")
    | some w => (mergeLoop rest new).map (.cons k w ·)
    | none => (mergeLoop rest new).map (.cons k .pnone ·)

/-- `update_merge(current, new)`: both arguments must be dicts. -/
def update_merge (cur new : PVal) : Except Err PVal :=
  match cur, new with
  | .pdict c, .pdict n => (mergeLoop c n).map .pdict
  | _, _ => .error "TypeError: merge updater needs dicts"

/-- Apply an updater resolved from `updater_library`; an unset updater is
Python `None`, which is not callable. -/
def applyUpdater (u : Option UpdaterName) (cur payload : PVal) : Except Err PVal :=
  match u with
  | none => .error "TypeError: NoneType is not callable"
  | some .accumulate => update_accumulate cur payload
  | some .set => update_set cur payload
  | some .merge => update_merge cur payload

-- Updates (the argument of Store.apply_update) and process trees

mutual

/-- A (possibly nested) dict of processes, as passed to `generate_paths`:
leaves are `Process` objects carrying their identity, `is_deriver()` flag,
and `ports_schema()` result. -/
inductive ProcTree where
  | proc (pid : ℕ) (isDeriver : Bool) (schema : Config) : ProcTree
  | group (entries : ProcList) : ProcTree

/-- Named process-tree entries, in insertion order. -/
inductive ProcList where
  | nil : ProcList
  | cons (k : String) (t : ProcTree) (rest : ProcList) : ProcList

end

/-- One `_generate` directive entry (also the shape of `generate`'s
arguments): path, processes, topology, initial state. -/
structure GenSpec where
  path : List String
  processes : ProcTree
  topology : TopoMap
  initialState : PVal

/-- One daughter spec inside a `_divide` directive. -/
structure Dght where
  daughter : String
  path : List String
  processes : ProcTree
  topology : TopoMap
  initialState : PVal

/-- A `_divide` directive: mother id plus daughter specs. -/
structure DivSpec where
  mother : String
  daughters : List Dght

/-- The reserved keys an update dict may carry.  `_reduce` is not
modelled: its payload is an arbitrary caller-supplied Python reducer
function, which has no shallow embedding (and nothing in the repository
uses it). -/
structure UDirs where
  del : Option (List (List String)) := none
  add : Option (List (List String × PVal)) := none
  gen : Option (List GenSpec) := none
  div : Option DivSpec := none
  updater : Option UpdaterName := none
  uvalue : Option PVal := none

mutual

/-- An update as passed to `Store.apply_update`: either a bare value
(the payload handed to a leaf updater) or a dict of reserved directives
plus plain keys. -/
inductive Upd where
  | v (x : PVal) : Upd
  | node (dirs : UDirs) (entries : UpdMap) : Upd

/-- Plain update entries, in insertion order. -/
inductive UpdMap where
  | nil : UpdMap
  | cons (k : String) (u : Upd) (rest : UpdMap) : UpdMap

end

mutual

/-- The raw Python value of an update (updates are plain nested dicts):
used when an update dict is handed to `set_value` or directly to a leaf
updater.  Reserved directive keys of a nested dict are not re-encoded
(no modelled update mixes directives into a leaf payload). -/
def updToPVal : Upd → PVal
  | .v x => x
  | .node _ entries => .pdict (updMapToPMap entries)

/-- Entry part of `updToPVal`. -/
def updMapToPMap : UpdMap → PMap
  | .nil => .nil
  | .cons k u rest => .cons k (updToPVal u) (updMapToPMap rest)

end

/-- Transform the node at an address with an error-returning local
operation, grafting the (possibly partially) mutated node back. -/
def updateAtE (root : Store) (addr : List String) (f : Store → Store × Option Err) :
    Store × Option Err :=
  match nodeAt root addr with
  | none => (root, some "internal: dangling address")
  | some n =>
    match f n with
    | (n', e) => (updateAt root addr fun _ => n', e)

/-- `Store.outer_path`: perform the `_path` redirection of a dict topology
entry if present (an `establish_path` from the current node), yielding the
address resolution continues from. -/
def outerPathE (root : Store) (cur : List String) (redirect : Option (List String))
    (source : Option (List String)) : Store × Except Err (List String) :=
  match redirect with
  | none => (root, .ok cur)
  | some p => establishPath root cur p Config.empty source

/-- The keys of a config dict as Python's `schema.keys()` sees them. -/
def Config.pyKeys (c : Config) : List String :=
  (if c.star.isSome then ["*"] else [])
    ++ (if c.subschema.isSome then ["_subschema"] else [])
    ++ (if c.subtopology.isSome then ["_subtopology"] else [])
    ++ (if c.divider.isSome then ["_divider"] else [])
    ++ (if c.leaf.default.isSome then ["_default"] else [])
    ++ (if c.leaf.value.isSome then ["_value"] else [])
    ++ (if c.leaf.updater.isSome then ["_updater"] else [])
    ++ (if c.leaf.properties.isSome then ["_properties"] else [])
    ++ (if c.leaf.emit.isSome then ["_emit"] else [])
    ++ (if c.leaf.serializer.isSome then ["_serializer"] else [])
    ++ c.children.keys

/-- `set(topology.keys()) - set(schema.keys())` (a dict topology argument
that still carries `_path` contributes that key). -/
def mismatchTopology (tm : TopoMap) (hasPathKey : Bool) (schema : Config) :
    List String :=
  ((tm.keys ++ if hasPathKey then ["_path"] else []).filter
    fun k => !(schema.pyKeys.contains k))

/-- The `_delete` loop of `apply_update`. -/
def delLoop (root : Store) (cur : List String) :
    List (List String) → Store × Option Err
  | [] => (root, none)
  | p :: rest =>
    match deletePath root cur p with
    | (root', _, some e) => (root', some e)
    | (root', _, none) => delLoop root' cur rest

/-- The `_add` loop of `apply_update`: establish each path and set its
state directly. -/
def addLoop (root : Store) (cur : List String) :
    List (List String × PVal) → Store × Option Err
  | [] => (root, none)
  | (p, st) :: rest =>
    match establishPath root cur p Config.empty none with
    | (root', .error e) => (root', some e)
    | (root', .ok tgt) =>
      match updateAtE root' tgt fun n => setValueS n st with
      | (root'', some e) => (root'', some e)
      | (root'', none) => addLoop root'' cur rest

/-- `Store({'_value': process, '_updater': 'set'})`, the node generated
for a process leaf by `generate_paths`. -/
def processConfig (pid : ℕ) (dv : Bool) : Config :=
  .mk none none none none { value := some (.pproc pid dv), updater := some .set } .nil

/-- Result of `apply_update`: mutated root, remaining random bits, the
accumulated `topology_updates` (as a list of path/topology pairs relative
to the updated node), and the propagating error if any. -/
structure URes where
  root : Store
  rand : List Bool
  topo : List (List String × TopoMap)
  err : Option Err

/-- Prefix collected topology updates with the child key they came from
(`deep_merge(topology_updates, {key: inner_updates})`). -/
def prefixTopo (key : String) (l : List (List String × TopoMap)) :
    List (List String × TopoMap) :=
  l.map fun pt => (key :: pt.1, pt.2)

mutual

/-- `Store.topology_ports(schema, topology, source)` with a dict topology
argument (`tm`; `hasPathKey` records an unstripped `_path` key, which
counts toward the mismatch check).  A leaf schema is applied at
`get_path(topology)` — only an empty dict resolves (to the node itself).
Otherwise: a topology key absent from the schema raises; a schema port
absent from the topology is only logged and defaults to the path
`(port,)`.  Ports are then wired: child ports first, then the wildcard
`*`, then degenerate reserved-key ports (Python iterates the schema dict
in insertion order instead; only error order differs).  `fuel` bounds the
call depth, standing in for Python's unbounded recursion. -/
def topologyPortsTM (fuel : ℕ) (root : Store) (cur : List String) (schema : Config)
    (tm : TopoMap) (hasPathKey : Bool) (source : Option (List String)) :
    Store × Option Err :=
  match fuel with
  | 0 => (root, some "RecursionError")
  | fuel + 1 =>
    let source := some (source.getD cur)
    if schema.hasSchemaKeys then
      if (tm matches .nil) && !hasPathKey then
        updateAtE root cur (applyConfigS schema none)
      else (root, some "KeyError: 0")
    else
      if !(mismatchTopology tm hasPathKey schema).isEmpty then
        (root, some "topology has keys that are not in the schema")
      else
        match portLoopCM fuel root cur schema.children tm source with
        | (root, some e) => (root, some e)
        | (root, none) =>
          match
            (match schema.star with
              | some starSub => starPort fuel root cur starSub (tm.lookup "*") source
              | none => (root, none)) with
          | (root, some e) => (root, some e)
          | (root, none) =>
            match
              (match schema.subschema with
                | some sc => portOne fuel root cur "_subschema" sc tm source
                | none => (root, none)) with
            | (root, some e) => (root, some e)
            | (root, none) =>
              if schema.divider.isSome then
                (root, some "AttributeError: divider value is not a schema")
              else if schema.subtopology.isSome then
                (root, some "AttributeError: subtopology value is not a schema")
              else (root, none)

/-- One non-wildcard port of `topology_ports`: a dict entry re-roots via
`outer_path` and recurses; a path entry is established with the port's
sub-schema. -/
def portOne (fuel : ℕ) (root : Store) (cur : List String) (port : String)
    (sub : Config) (tm : TopoMap) (source : Option (List String)) :
    Store × Option Err :=
  match fuel with
  | 0 => (root, some "RecursionError")
  | fuel + 1 =>
    match (tm.lookup port).getD (.path [port]) with
    | .sub r entries =>
      (match outerPathE root cur r source with
        | (root, .error e) => (root, some e)
        | (root, .ok nodeAddr) =>
          topologyPortsTM fuel root nodeAddr sub entries false source)
    | .path p =>
      match establishPath root cur p sub source with
      | (root, .error e) => (root, some e)
      | (root, .ok _) => (root, none)

/-- The child-port loop of `topology_ports`. -/
def portLoopCM (fuel : ℕ) (root : Store) (cur : List String) (cm : ConfigMap)
    (tm : TopoMap) (source : Option (List String)) : Store × Option Err :=
  match fuel with
  | 0 => (root, some "RecursionError")
  | fuel + 1 =>
    match cm with
    | .nil => (root, none)
    | .cons port sub rest =>
      match portOne fuel root cur port sub tm source with
      | (root, some e) => (root, some e)
      | (root, none) => portLoopCM fuel root cur rest tm source

/-- The wildcard (`*`) port of `topology_ports`: wrap the sub-schema as a
`_subschema` config; a dict entry re-roots, merges the remaining dict into
the target's subtopology and applies the config there, a path entry is
established with the config; then the target applies its subschema to all
current children and applies defaults. -/
def starPort (fuel : ℕ) (root : Store) (cur : List String) (starSub : Config)
    (entry : Option Topo) (source : Option (List String)) : Store × Option Err :=
  match fuel with
  | 0 => (root, some "RecursionError")
  | fuel + 1 =>
    let subschemaConfig : Config := .mk none (some starSub) none none {} .nil
    let step : Store × Except Err (List String) :=
      match entry.getD (.path ["*"]) with
      | .sub r entries =>
        (match outerPathE root cur r source with
          | (root, .error e) => (root, .error e)
          | (root, .ok nodeAddr) =>
            let root := updateAt root nodeAddr fun n =>
              n.modifyAttrs fun a =>
                { a with subtopology := deepMergeTopoMap a.subtopology entries }
            match updateAtE root nodeAddr (applyConfigS subschemaConfig none) with
            | (root, some e) => (root, .error e)
            | (root, none) => (root, .ok nodeAddr))
      | .path p => establishPath root cur p subschemaConfig source
    match step with
    | (root, .error e) => (root, some e)
    | (root, .ok nodeAddr) =>
      match applySubschemaF fuel root nodeAddr none none with
      | (root, some e) => (root, some e)
      | (root, none) => (updateAt root nodeAddr applyDefaultsS, none)

/-- `Store.apply_subschema(subschema, subtopology)`: wire the (given or
own) subschema into every current child, governed by the (given or own)
subtopology. -/
def applySubschemaF (fuel : ℕ) (root : Store) (addr : List String)
    (subO : Option Config) (stO : Option TopoMap) : Store × Option Err :=
  match fuel with
  | 0 => (root, some "RecursionError")
  | fuel + 1 =>
    match nodeAt root addr with
    | none => (root, some "internal: dangling address")
    | some node =>
      subChildLoop fuel root addr node.inner.keys
        (subO.getD node.attrs.subschema) (stO.getD node.attrs.subtopology)

/-- The child loop of `apply_subschema` (the child list is snapshotted
before the loop, as `list(self.inner.items())` does). -/
def subChildLoop (fuel : ℕ) (root : Store) (addr : List String) :
    List String → Config → TopoMap → Store × Option Err
  | ks, sub, stp =>
    match fuel with
    | 0 => (root, some "RecursionError")
    | fuel + 1 =>
      match ks with
      | [] => (root, none)
      | k :: rest =>
        match topologyPortsTM fuel root (addr ++ [k]) sub stp false
            (some (addr ++ ["*"])) with
        | (root, some e) => (root, some e)
        | (root, none) => subChildLoop fuel root addr rest sub stp

/-- `Store.apply_subschemas()`: apply the subschema here if one exists,
then recurse into every child. -/
def applySubschemasF (fuel : ℕ) (root : Store) (addr : List String) :
    Store × Option Err :=
  match fuel with
  | 0 => (root, some "RecursionError")
  | fuel + 1 =>
    match nodeAt root addr with
    | none => (root, some "internal: dangling address")
    | some node =>
      match
        (if !node.attrs.subschema.isEmpty then
          applySubschemaF fuel root addr none none
        else (root, none)) with
      | (root, some e) => (root, some e)
      | (root, none) =>
        match nodeAt root addr with
        | none => (root, some "internal: dangling address")
        | some node' => subsChildLoop fuel root addr node'.inner.keys

/-- The recursion loop of `apply_subschemas`. -/
def subsChildLoop (fuel : ℕ) (root : Store) (addr : List String) :
    List String → Store × Option Err
  | ks =>
    match fuel with
    | 0 => (root, some "RecursionError")
    | fuel + 1 =>
      match ks with
      | [] => (root, none)
      | k :: rest =>
        match applySubschemasF fuel root (addr ++ [k]) with
        | (root, some e) => (root, some e)
        | (root, none) => subsChildLoop fuel root addr rest

/-- `topology_ports` dispatched on the runtime type of the topology
argument (`generate_paths` passes whatever `topology[key]` holds): a tuple
path resolves with `get_path` for a leaf schema and raises for a port
schema (`tuple` has no `.keys()`); a dict goes to the main worker. -/
def topologyPortsTopo (fuel : ℕ) (root : Store) (cur : List String)
    (schema : Config) (t : Topo) (source : Option (List String)) :
    Store × Option Err :=
  match fuel with
  | 0 => (root, some "RecursionError")
  | fuel + 1 =>
    match t with
    | .path p =>
      if schema.hasSchemaKeys then
        match resolvePath root cur p with
        | none => (root, some "AttributeError: NoneType has no apply_config")
        | some addr => updateAtE root addr (applyConfigS schema none)
      else (root, some "AttributeError: tuple has no keys")
    | .sub r entries => topologyPortsTM fuel root cur schema entries r.isSome source

/-- `Store.generate_paths(processes, topology)`: each process leaf becomes
a `set`-updated process node whose `ports_schema()` is wired in through
its subtopology; nested groups recurse (an absent topology key raises). -/
def generatePathsF (fuel : ℕ) (root : Store) (cur : List String) :
    ProcList → TopoMap → Store × Option Err
  | ps, tm =>
    match fuel with
    | 0 => (root, some "RecursionError")
    | fuel + 1 =>
      match ps with
      | .nil => (root, none)
      | .cons key sub rest =>
        match tm.lookup key with
        | none => (root, some "KeyError: topology")
        | some subtopology =>
          match sub with
          | .proc pid dv schema =>
            let pstate := (mkStore (processConfig pid dv)).1
            let root := updateAt root cur fun n =>
              n.withInner (n.inner.setKey key pstate)
            (match topologyPortsTopo fuel root cur schema subtopology
                (some (cur ++ [key])) with
              | (root, some e) => (root, some e)
              | (root, none) => generatePathsF fuel root cur rest tm)
          | .group entries =>
            let root :=
              match (nodeAt root cur).bind fun n => n.inner.lookup key with
              | some _ => root
              | none => updateAt root cur fun n =>
                  n.withInner (n.inner.setKey key emptyStore)
            match subtopology with
            | .path _ => (root, some "TypeError: tuple indices must be integers")
            | .sub _ stEntries =>
              match generatePathsF fuel root (cur ++ [key]) entries stEntries with
              | (root, some e) => (root, some e)
              | (root, none) => generatePathsF fuel root cur rest tm

/-- `Store.generate(path, processes, topology, initial_state)`. -/
def generateF (fuel : ℕ) (root : Store) (cur : List String) (path : List String)
    (pt : ProcTree) (tm : TopoMap) (initial : PVal) : Store × Option Err :=
  match fuel with
  | 0 => (root, some "RecursionError")
  | fuel + 1 =>
    match establishPath root cur path Config.empty none with
    | (root, .error e) => (root, some e)
    | (root, .ok tgt) =>
      match pt with
      | .proc _ _ _ => (root, some "AttributeError: Process has no items")
      | .group entries =>
        match generatePathsF fuel root tgt entries tm with
        | (root, some e) => (root, some e)
        | (root, none) =>
          match updateAtE root tgt fun n => setValueS n initial with
          | (root, some e) => (root, some e)
          | (root, none) =>
            match applySubschemasF fuel root tgt with
            | (root, some e) => (root, some e)
            | (root, none) => (updateAt root tgt applyDefaultsS, none)

/-- The `_generate` loop of `apply_update`. -/
def genLoopF (fuel : ℕ) (root : Store) (cur : List String) :
    List GenSpec → Store × List (List String × TopoMap) × Option Err
  | gens =>
    match fuel with
    | 0 => (root, [], some "RecursionError")
    | fuel + 1 =>
      match gens with
      | [] => (root, [], none)
      | g :: rest =>
        match generateF fuel root cur g.path g.processes g.topology g.initialState with
        | (root, some e) => (root, [], some e)
        | (root, none) =>
          match genLoopF fuel root cur rest with
          | (root, topo, e) => (root, (g.path, g.topology) :: topo, e)

/-- The daughter loop of the `_divide` directive: merge the divided share
onto the (accumulating) captured template, generate the daughter subtree,
re-apply subschemas, set the merged state on the daughter child
(`KeyError` when the daughter id is not a child), apply defaults. -/
def dghtLoopF (fuel : ℕ) (root : Store) (cur : List String) :
    List (Dght × PVal) → PVal → Store × List (List String × TopoMap) × Option Err
  | pairs, initial =>
    match fuel with
    | 0 => (root, [], some "RecursionError")
    | fuel + 1 =>
      match pairs with
      | [] => (root, [], none)
      | (d, st) :: rest =>
        let initial := deepMergeV initial st
        match generateF fuel root cur d.path d.processes d.topology d.initialState with
        | (root, some e) => (root, [], some e)
        | (root, none) =>
          match applySubschemasF fuel root cur with
          | (root, some e) => (root, [(d.path, d.topology)], some e)
          | (root, none) =>
            match (nodeAt root cur).bind fun n => n.inner.lookup d.daughter with
            | none => (root, [(d.path, d.topology)], some "KeyError: daughter")
            | some _ =>
              match updateAtE root (cur ++ [d.daughter]) fun n => setValueS n initial with
              | (root, some e) => (root, [(d.path, d.topology)], some e)
              | (root, none) =>
                let root := updateAt root cur applyDefaultsS
                match dghtLoopF fuel root cur rest initial with
                | (root, topo, e) => (root, (d.path, d.topology) :: topo, e)

/-- `Store.apply_update(update)` at the node with absolute address `cur`.
At a node with children or a subschema, the structural directives run in
the fixed order `_delete`, `_add`, `_generate`, `_divide`, then the
remaining keys recurse into matching children (keys naming no child are
instantiated from the subschema when one exists and silently ignored
otherwise).  At a childless, subschema-less node the payload is fed to the
node's updater, with a `_updater`/`_value` override taking precedence
(`_reduce` carries an arbitrary reducer function and is not modelled). -/
def applyUpdateF (fuel : ℕ) (root : Store) (cur : List String) (u : Upd)
    (rand : List Bool) : URes :=
  match fuel with
  | 0 => ⟨root, rand, [], some "RecursionError"⟩
  | fuel + 1 =>
    match nodeAt root cur with
    | none => ⟨root, rand, [], some "internal: dangling address"⟩
    | some node =>
      if !node.inner.isNil || !node.attrs.subschema.isEmpty then
        match u with
        | .v _ => ⟨root, rand, [], some "TypeError: update is not iterable"⟩
        | .node dirs entries =>
          -- _delete
          match
            (match dirs.del with
              | some ps => delLoop root cur ps
              | none => (root, none)) with
          | (root, some e) => ⟨root, rand, [], some e⟩
          | (root, none) =>
            -- _add
            match
              (match dirs.add with
                | some adds =>
                  (match addLoop root cur adds with
                    | (root, some e) => (root, some e)
                    | (root, none) =>
                      match applySubschemasF fuel root cur with
                      | (root, some e) => (root, some e)
                      | (root, none) => (updateAt root cur applyDefaultsS, none))
                | none => (root, none)) with
            | (root, some e) => ⟨root, rand, [], some e⟩
            | (root, none) =>
              -- _generate
              match
                (match dirs.gen with
                  | some gens =>
                    (match genLoopF fuel root cur gens with
                      | (root, topo, some e) => (root, topo, some e)
                      | (root, topo, none) =>
                        match applySubschemasF fuel root cur with
                        | (root, some e) => (root, topo, some e)
                        | (root, none) => (updateAt root cur applyDefaultsS, topo, none))
                  | none => (root, [], none)) with
              | (root, topoG, some e) => ⟨root, rand, topoG, some e⟩
              | (root, topoG, none) =>
                -- _divide
                match
                  (match dirs.div with
                    | some dv =>
                      (match (nodeAt root cur).bind fun n => n.inner.lookup dv.mother with
                        | none => (root, rand, [], some "KeyError: mother")
                        | some motherNode =>
                          let initial0 := getValue true motherNode
                          match divideValueS root motherNode (cur ++ [dv.mother]) rand with
                          | (.error e, rand') => (root, rand', [], some e)
                          | (.ok none, rand') =>
                            (root, rand', [], some "TypeError: zip argument is not iterable")
                          | (.ok (some (s1, s2)), rand') =>
                            match dghtLoopF fuel root cur
                                (dv.daughters.zip [s1, s2]) initial0 with
                            | (root, topoD, some e) => (root, rand', topoD, some e)
                            | (root, topoD, none) =>
                              match deletePath root cur [dv.mother] with
                              | (root, _, some e) => (root, rand', topoD, some e)
                              | (root, _, none) => (root, rand', topoD, none))
                    | none => (root, rand, [], none)) with
                | (root, rand, topoD, some e) =>
                  ⟨root, rand, topoG ++ topoD, some e⟩
                | (root, rand, topoD, none) =>
                  -- remaining plain keys
                  match entriesLoopF fuel root cur entries rand with
                  | res => ⟨res.root, res.rand, topoG ++ topoD ++ res.topo, res.err⟩
      else
        let updaterAndPayload : Option UpdaterName × PVal :=
          match u with
          | .node dirs _ =>
            if dirs.updater.isSome || dirs.uvalue.isSome then
              match dirs.updater with
              | some un => (some un, dirs.uvalue.getD node.attrs.default)
              | none => (node.attrs.updater, updToPVal u)
            else (node.attrs.updater, updToPVal u)
          | .v x => (node.attrs.updater, x)
        match applyUpdater updaterAndPayload.1 node.attrs.value updaterAndPayload.2 with
        | .error e => ⟨root, rand, [], some e⟩
        | .ok v' =>
          ⟨updateAt root cur fun n => n.modifyAttrs fun a => { a with value := v' },
            rand, [], none⟩

/-- The plain-key loop of `apply_update`. -/
def entriesLoopF (fuel : ℕ) (root : Store) (cur : List String) (em : UpdMap)
    (rand : List Bool) : URes :=
  match fuel with
  | 0 => ⟨root, rand, [], some "RecursionError"⟩
  | fuel + 1 =>
    match em with
    | .nil => ⟨root, rand, [], none⟩
    | .cons key val rest =>
      match nodeAt root cur with
      | none => ⟨root, rand, [], some "internal: dangling address"⟩
      | some node =>
        match node.inner.lookup key with
        | some _ =>
          (match applyUpdateF fuel root (cur ++ [key]) val rand with
            | res =>
              if res.err.isSome then
                ⟨res.root, res.rand, prefixTopo key res.topo, res.err⟩
              else
                match entriesLoopF fuel res.root cur rest res.rand with
                | res2 =>
                  ⟨res2.root, res2.rand, prefixTopo key res.topo ++ res2.topo, res2.err⟩)
        | none =>
          if !node.attrs.subschema.isEmpty then
            match applyConfigS node.attrs.subschema none emptyStore with
            | (_, some e) => ⟨root, rand, [], some e⟩
            | (child, none) =>
              let root := updateAt root cur fun n =>
                n.withInner (n.inner.setKey key child)
              match updateAtE root (cur ++ [key]) fun n =>
                  setValueS n (updToPVal val) with
              | (root, some e) => ⟨root, rand, [], some e⟩
              | (root, none) =>
                let root := updateAt root (cur ++ [key]) applyDefaultsS
                entriesLoopF fuel root cur rest rand
          else entriesLoopF fuel root cur rest rand

end

/-- `Store.apply_update` invoked on the tree root (as the scheduler does). -/
def applyUpdateRoot (fuel : ℕ) (root : Store) (u : Upd) (rand : List Bool) : URes :=
  applyUpdateF fuel root [] u rand

-- The scheduler (Experiment.update, vivarium/core/experiment.py 1351-1444).
--
-- The update loop is modelled over an abstract store type sigma and an
-- abstract update type U: the loop only inspects the store through the
-- process listing, the per-process update computation, and the batch
-- application (which also runs the derivers), so these are oracle
-- parameters; simulated times (Python floats) are idealised as rationals.
-- Snapshot emission is not modelled: it does not influence the loop
-- control flow, times, or fronts.

/-- One front entry: `{'time': t, 'update': u}`. -/
structure FrontEntry (U : Type) where
  time : ℚ
  update : U

/-- The oracle interface of the update loop: the non-deriver process nodes
currently in the tree (path id and `local_timestep()`, in `Store.depth`
order), `process_update` (a pure function of the snapshot), `send_updates`
(applying a batch and re-running derivers), the empty update dict `{}` and
the emptiness test `len(u) == 0`. -/
structure SchedOracle (σ U : Type) where
  procs : σ → List (ℕ × ℚ)
  computeUpdate : σ → ℕ → ℚ → U
  applyUpdates : σ → List (ℕ × U) → σ
  uEmpty : U
  uIsEmpty : U → Bool

/-- The mutable state of one `Experiment.update` call: the loop variable
`time`, the store, and the `front` dict in insertion order. -/
structure LoopState (σ U : Type) where
  time : ℚ
  store : σ
  front : List (ℕ × FrontEntry U)

/-- `front[path]['time']` (the key is always present where this is read). -/
def frontTime {U : Type} (front : List (ℕ × FrontEntry U)) (path : ℕ) : ℚ :=
  match front.find? fun pe => pe.1 == path with
  | some pe => pe.2.time
  | none => 0

/-- `front[path] = entry`, preserving dict position. -/
def frontSet {U : Type} (front : List (ℕ × FrontEntry U)) (path : ℕ)
    (e : FrontEntry U) : List (ℕ × FrontEntry U) :=
  front.map fun pe => if pe.1 == path then (pe.1, e) else pe

/-- The body of the process scan loop of `Experiment.update`: seed a
missing front entry at the current time, and when the process is due
compute its update, advance its front and fold its timestep into
`full_step`. -/
def scanStep {σ U : Type} (O : SchedOracle σ U) (interval : ℚ)
    (st : LoopState σ U) (acc : List (ℕ × FrontEntry U) × Option ℚ)
    (pq : ℕ × ℚ) : List (ℕ × FrontEntry U) × Option ℚ :=
  let front :=
    if acc.1.any fun pe => pe.1 == pq.1 then acc.1
    else acc.1 ++ [(pq.1, ⟨st.time, O.uEmpty⟩)]
  let pt := frontTime front pq.1
  if pt ≤ st.time then
    let future := min (pt + pq.2) interval
    let timestep := future - pt
    let u := O.computeUpdate st.store pq.1 timestep
    let fullStep' :=
      match acc.2 with
      | none => some timestep
      | some f => if timestep < f then some timestep else some f
    (frontSet front pq.1 ⟨future, u⟩, fullStep')
  else (front, acc.2)

/-- The scan phase of one loop iteration: filter the front to live
processes, then run `scanStep` over every process, yielding the updated
front and the optional `full_step`. -/
def tickScan {σ U : Type} (O : SchedOracle σ U) (interval : ℚ)
    (st : LoopState σ U) : List (ℕ × FrontEntry U) × Option ℚ :=
  let procs := O.procs st.store
  procs.foldl (scanStep O interval st)
    (st.front.filter fun pe => procs.any fun q => q.1 == pe.1, none)

/-- One iteration of the `while time < interval` loop of
`Experiment.update`.  Faithful details: the front is first filtered to
live processes; the scan loop seeds missing entries at the current time
(making them due), computes an update for every due process, advances its
front to `min(front_time + local_timestep, interval)` and tracks the
minimal timestep `full_step`; if nothing was due, the idle skip reads
`front[path]` — `path` being the stale variable left by the scan loop,
i.e. the LAST process in iteration order, not the loop variable
`process_name` — so it jumps to `min(interval, front[last].time)` rather
than to the minimum over all fronts; otherwise updates whose front lies
within `time + full_step` are applied in one batch and their pending
updates reset to `{}`. -/
def schedTick {σ U : Type} (O : SchedOracle σ U) (interval : ℚ)
    (st : LoopState σ U) : LoopState σ U :=
  let procs := O.procs st.store
  let scan := tickScan O interval st
  match scan.2 with
  | none =>
    let time' :=
      match scan.1 with
      | [] => interval
      | _ :: _ =>
        match procs.getLast? with
        | some pq =>
          let t := frontTime scan.1 pq.1
          if t < interval then t else interval
        | none => interval
    { st with time := time', front := scan.1 }
  | some fs =>
    let future := st.time + fs
    let updates := scan.1.filterMap fun pe =>
      if pe.2.time ≤ future then some (pe.1, pe.2.update) else none
    let front2 := scan.1.map fun pe =>
      if pe.2.time ≤ future then (pe.1, ⟨pe.2.time, O.uEmpty⟩) else pe
    { time := future, store := O.applyUpdates st.store updates, front := front2 }

/-- The `assert advance['time'] == time == interval` /
`assert len(advance['update']) == 0` epilogue: `some` final state exactly
when every assertion passes. -/
def schedAsserts {σ U : Type} (O : SchedOracle σ U) (interval : ℚ)
    (st : LoopState σ U) : Option (LoopState σ U) :=
  if st.front.all fun pe =>
      decide (pe.2.time = st.time) && decide (st.time = interval)
        && O.uIsEmpty pe.2.update
  then some st else none

/-- The `while time < interval` loop with the assertion epilogue; `none`
models both an exhausted fuel bound (the Python loop not terminating
within it) and a failed assertion — any abnormal outcome. -/
def schedLoop {σ U : Type} (O : SchedOracle σ U) (interval : ℚ) :
    ℕ → LoopState σ U → Option (LoopState σ U)
  | 0, _ => none
  | n + 1, st =>
    if st.time < interval then schedLoop O interval n (schedTick O interval st)
    else schedAsserts O interval st

/-- `Experiment.update(interval)` starting from `time = 0` and an empty
front. -/
def experimentUpdate {σ U : Type} (O : SchedOracle σ U) (interval : ℚ)
    (s0 : σ) (fuel : ℕ) : Option (LoopState σ U) :=
  schedLoop O interval fuel ⟨0, s0, []⟩

/-- The idle skip the spec describes: jump to the minimum future front
time over ALL processes in the front, capped at the interval.  Stated from
the spec for comparison with the implemented skip. -/
def nextEventSpec {U : Type} (front : List (ℕ × FrontEntry U)) (interval : ℚ) : ℚ :=
  front.foldl (fun acc pe => if pe.2.time < acc then pe.2.time else acc) interval

mutual

/-- `emit_data` as the spec words it ("branch nodes recurse and omit
entirely-empty subtrees"): identical to `emitDataS` except that a child
whose subtree contributes no emitted leaf (an empty dict) is omitted.
Stated from the spec for comparison with the implemented collector. -/
def emitDataSpecS : Store → Except Err (Option PVal)
  | .mk a i =>
    match i with
    | .cons k c rest => (emitDataSpecM (.cons k c rest)).map fun m => some (.pdict m)
    | .nil =>
      if a.emit then
        match a.serializer with
        | some .numpy =>
          match a.value with
          | .parr xs => .ok (some (.plist (floatsToPList xs)))
          | _ => .error "AttributeError: value has no tolist"
        | none =>
          match a.value with
          | .pproc _ _ => .ok (some (.pdict .nil))
          | v =>
            match a.units with
            | some u =>
              (match v with
                | .pquant mag u' =>
                  if u' = u then .ok (some (.pfloat mag))
                  else .error "unit conversion not modelled"
                | _ => .error "AttributeError: value has no to")
            | none => .ok (some v)
      else .ok none

/-- Child part of `emitDataSpecS`: `None` children and empty-dict children
are both omitted. -/
def emitDataSpecM : StoreMap → Except Err PMap
  | .nil => .ok .nil
  | .cons k c rest =>
    match emitDataSpecS c with
    | .error e => .error e
    | .ok none => emitDataSpecM rest
    | .ok (some (.pdict .nil)) => emitDataSpecM rest
    | .ok (some v) => (emitDataSpecM rest).map (.cons k v ·)

end

-- Helper constructors and observers used by the claim theorems.

/-- The config dict `{'_default': x}`. -/
def cfgDefault (x : PVal) : Config :=
  .mk none none none none { default := some x } .nil

/-- The config dict `{'_value': x}`. -/
def cfgValue (x : PVal) : Config :=
  .mk none none none none { value := some x } .nil

/-- The config dict `{'_default': d, '_emit': e}`. -/
def cfgLeafDE (d : PVal) (e : Bool) : Config :=
  .mk none none none none { default := some d, emit := some e } .nil

/-- Does the node have a child of this name? -/
def hasChild (s : Store) (k : String) : Bool :=
  (s.inner.lookup k).isSome

mutual

/-- Is every node of the subtree tombstoned? -/
def allDeletedS : Store → Bool
  | .mk a i => a.deleted && allDeletedM i

/-- Child part of `allDeletedS`. -/
def allDeletedM : StoreMap → Bool
  | .nil => true
  | .cons _ c rest => allDeletedS c && allDeletedM rest

end

-- Concrete instances used by the claim theorems.

/-- An experiment with no registered processes (store and updates carry no
information). -/
def trivOracle : SchedOracle Unit Bool :=
  { procs := fun _ => []
    computeUpdate := fun _ _ _ => true
    applyUpdates := fun s _ => s
    uEmpty := false
    uIsEmpty := fun u => !u }

/-- An experiment with two registered processes (ids 1 and 2, timesteps 5
and 7). -/
def idleOracle : SchedOracle Unit Bool :=
  { procs := fun _ => [(1, 5), (2, 7)]
    computeUpdate := fun _ _ _ => true
    applyUpdates := fun s _ => s
    uEmpty := false
    uIsEmpty := fun u => !u }

/-- A loop state in which neither process is due: global time 2, process 1
has front time 4, process 2 (the last in iteration order) has front time 6.
Reachable when a third, faster process advanced time to 2 and was then
deleted by its own update. -/
def idleState : LoopState Unit Bool := ⟨2, (), [(1, ⟨4, false⟩), (2, ⟨6, false⟩)]⟩

/-- The store `{'a': {'_value': 5}}` — one branch with a single leaf
child. -/
def c10store : Store :=
  (applyConfigS (.mk none none none none {}
    (.cons "a" (cfgValue (.pint 5)) .nil)) none emptyStore).1

/-- The update `{'_add': [{'path': ('b',), 'state': 3}]}`. -/
def c10addUpd : Upd := .node { add := some [(["b"], .pint 3)] } .nil

/-- A port schema `{'foo': {'_default': 0}}`. -/
def c4schema : Config :=
  .mk none none none none {} (.cons "foo" (cfgDefault (.pint 0)) .nil)

/-- A topology `{'bar': ('somewhere',)}` whose key `bar` names no schema
port. -/
def c4topoBad : TopoMap := .cons "bar" (.path ["somewhere"]) .nil

/-- The store `{'a': {'b': <leaf, emit off>}, 'c': <leaf, emit on, 7>}`:
subtree `a` contributes no emitted leaf. -/
def c9store : Store :=
  (applyConfigS (.mk none none none none {}
    (.cons "a" (.mk none none none none {}
      (.cons "b" (cfgLeafDE (.pint 1) false) .nil))
    (.cons "c" (.mk none none none none
      { value := some (.pint 7), emit := some true } .nil) .nil))) none emptyStore).1

/-- The store `{'a': {'b': {'_value': 5}}}`. -/
def c8store : Store :=
  (applyConfigS (.mk none none none none {}
    (.cons "a" (.mk none none none none {}
      (.cons "b" (cfgValue (.pint 5)) .nil)) .nil)) none emptyStore).1

/-- The subtree of `c8store` at `('a',)`. -/
def c8nodeA : Store := (nodeAt c8store ["a"]).getD emptyStore

/-- The leaf of `c8store` at `('a', 'b')`. -/
def c8leafB : Store := (nodeAt c8store ["a", "b"]).getD emptyStore

/-- A config with one defaulted leaf child and one explicit-value leaf
child: `{'a': {'_default': 5}, 'b': {'_value': 'x'}}`. -/
def c7cfg : Config :=
  .mk none none none none {}
    (.cons "a" (cfgDefault (.pint 5)) (.cons "b" (cfgValue (.pstr "x")) .nil))

/-- The store built by applying `c7cfg` to a fresh node. -/
def c7store : Store := (applyConfigS c7cfg none emptyStore).1

/-- The store `{'m': {'x': {'_value': 4, '_divider': 'split'}}}` — a
mother branch whose single leaf has the `split` divider. -/
def c3store : Store :=
  (applyConfigS (.mk none none none none {}
    (.cons "m" (.mk none none none none {}
      (.cons "x" (.mk none none none (some (.named .split))
        { value := some (.pint 4) } .nil) .nil)) .nil)) none emptyStore).1

/-- A `_divide` directive whose first daughter generates cleanly at
`('d1',)` and whose second daughter's path `('..', 'd2')` steps above the
root, raising midway through the division. -/
def c3upd : Upd :=
  .node
    { div := some
        { mother := "m",
          daughters :=
            [ { daughter := "d1", path := ["d1"], processes := .group .nil,
                topology := .nil, initialState := .pnone },
              { daughter := "d2", path := ["..", "d2"], processes := .group .nil,
                topology := .nil, initialState := .pnone } ] } }
    .nil

mutual

/-- Well-formedness of a store tree: every `inner` map has duplicate-free
keys (Python dicts cannot have duplicates). -/
def StoreWF : Store → Bool
  | .mk _ i => decide i.keys.Nodup && StoreWFM i

/-- Child part of `StoreWF`. -/
def StoreWFM : StoreMap → Bool
  | .nil => true
  | .cons _ c rest => StoreWF c && StoreWFM rest

end

/-- Remove the child `k` of the node at absolute address `tgt` (the
mutation performed by a successful non-empty `delete_path`). -/
def remAt (root : Store) (tgt : List String) (k : String) : Store :=
  updateAt root tgt fun n => n.withInner (n.inner.removeKey k)

mutual

/-- The value-relevant skeleton of two stores agrees: same resolved
value, default, updater, leaf flag, subschema emptiness, and the same
children keys in the same order with agreeing skeletons.  Everything
`get_value` reads — and every field `apply_config`'s control flow and
value results depend on — is covered; purely metadata fields
(properties, units, divider, emit, serializer, sources, subtopology,
subschema content, deleted) may differ. -/
def cfgEqS : Store → Store → Bool
  | .mk a i, .mk a' i' =>
    a.default == a'.default && a.value == a'.value
      && decide (a.updater = a'.updater) && (a.leaf == a'.leaf)
      && (a.subschema.isEmpty == a'.subschema.isEmpty)
      && cfgEqM i i'

/-- Child part of `cfgEqS`. -/
def cfgEqM : StoreMap → StoreMap → Bool
  | .nil, .nil => true
  | .cons k c r, .cons k' c' r' => k == k' && cfgEqS c c' && cfgEqM r r'
  | _, _ => false

end

mutual

/-- Well-formedness of a config dict: duplicate-free child keys and
well-formed `_default`/`_value` payloads, recursively.  Every config
assembled from Python dicts satisfies this. -/
def ConfigWF : Config → Bool
  | .mk _ _ _ _ cleaf cchildren =>
    (match cleaf.default with | some v => PVal.WF v | none => true)
      && (match cleaf.value with | some v => PVal.WF v | none => true)
      && decide cchildren.keys.Nodup && ConfigWFM cchildren

/-- Child part of `ConfigWF`. -/
def ConfigWFM : ConfigMap → Bool
  | .nil => true
  | .cons _ c rest => ConfigWF c && ConfigWFM rest

end

/-- C5: `divide_split` on a non-negative integer yields, for every random
choice, a pair summing to the input with the parts differing by at most 1,
and the two random choices produce the two orderings; infinity and the
string "Infinity" split into two copies; finite floats and unit quantities
are halved; `None`, non-"Infinity" strings, dicts, lists, process handles
and arrays raise the divider error. -/
theorem divide_split_contract :
    (∀ (n : ℕ) (rng : Bool), ∃ x y : ℤ,
        divide_split rng (.pint (n : ℤ)) = .ok (.pint x, .pint y) ∧
        x + y = (n : ℤ) ∧ (x - y).natAbs ≤ 1) ∧
    (∀ n : ℕ,
        divide_split true (.pint (n : ℤ)) =
          .ok (.pint ((n / 2 + n % 2 : ℕ) : ℤ), .pint ((n / 2 : ℕ) : ℤ)) ∧
        divide_split false (.pint (n : ℤ)) =
          .ok (.pint ((n / 2 : ℕ) : ℤ), .pint ((n / 2 + n % 2 : ℕ) : ℤ))) ∧
    (∀ rng : Bool,
        divide_split rng .pinf = .ok (.pinf, .pinf) ∧
        divide_split rng (.pstr "Infinity") = .ok (.pstr "Infinity", .pstr "Infinity")) ∧
    (∀ (rng : Bool) (q : ℚ),
        divide_split rng (.pfloat q) = .ok (.pfloat (q / 2), .pfloat (q / 2))) ∧
    (∀ (rng : Bool) (q : ℚ) (u : String),
        divide_split rng (.pquant q u) = .ok (.pquant (q / 2) u, .pquant (q / 2) u)) ∧
    (∀ (rng : Bool) (s : String), s ≠ "Infinity" →
        divide_split rng (.pstr s) = .error "can not divide state") ∧
    (∀ rng : Bool,
        divide_split rng .pnone = .error "can not divide state" ∧
        (∀ m : PMap, divide_split rng (.pdict m) = .error "can not divide state") ∧
        (∀ l : PList, divide_split rng (.plist l) = .error "can not divide state") ∧
        (∀ (p : ℕ) (d : Bool), divide_split rng (.pproc p d) = .error "can not divide state") ∧
        (∀ xs : List ℚ, divide_split rng (.parr xs) = .error "can not divide state")) := by
  refine ⟨?_, ?_, ?_, ?_, ?_, ?_, ?_⟩
  · intro n rng
    have hd : Int.tdiv (n : ℤ) 2 = ((n / 2 : ℕ) : ℤ) := rfl
    have hm : Int.emod (n : ℤ) 2 = ((n % 2 : ℕ) : ℤ) := rfl
    cases rng
    · refine ⟨((n / 2 : ℕ) : ℤ), ((n / 2 : ℕ) : ℤ) + ((n % 2 : ℕ) : ℤ), ?_, ?_, ?_⟩
      · simp [divide_split, hd, hm]
      · push_cast; omega
      · push_cast; omega
    · refine ⟨((n / 2 : ℕ) : ℤ) + ((n % 2 : ℕ) : ℤ), ((n / 2 : ℕ) : ℤ), ?_, ?_, ?_⟩
      · simp [divide_split, hd, hm]
      · push_cast; omega
      · push_cast; omega
  · intro n
    constructor
    · simp [divide_split]; constructor <;> rfl
    · simp [divide_split]; constructor <;> rfl
  · intro rng; exact ⟨rfl, rfl⟩
  · intro rng q; rfl
  · intro rng q u; rfl
  · intro rng s hs; simp [divide_split, hs]
  · intro rng
    exact ⟨rfl, fun m => rfl, fun l => rfl, fun p d => rfl, fun xs => rfl⟩

/-- Witness for C5 at concrete inputs (discharging the `s ≠ "Infinity"`
hypothesis at `s = "x"`). -/
theorem divide_split_contract_witness :
    ("x" ≠ "Infinity") ∧
      divide_split true (.pstr "x") = .error "can not divide state" := by
  refine ⟨by decide, divide_split_contract.2.2.2.2.2.1 true "x" (by decide)⟩

theorem Store.eta (s : Store) : s = .mk s.attrs s.inner := by
  cases s; rfl

/-- `pyEq` values agree on Python `== 0`. -/
theorem pyEq_isZero {a b : PVal} (h : pyEq a b = true) : pyIsZero a = pyIsZero b := by
  cases a <;> cases b <;> simp_all [pyEq, pyIsZero] <;>
    first
    | (rename_i x y; subst h; simp)
    | (rename_i x y; cases x <;> simp_all <;> (try subst h) <;> norm_num)
    | (rename_i x y; cases y <;> simp_all <;> (try subst h) <;> norm_num)

/-- `apply_config` of `{'_default': x}` on a childless node: no error,
the default goes through `check_default`, the value is untouched. -/
theorem applyConfig_cfgDefault (x : PVal) (a : Attrs) :
    (applyConfigS (cfgDefault x) none (.mk a .nil)).2 = none ∧
    (applyConfigS (cfgDefault x) none (.mk a .nil)).1.attrs.default
      = check_default a.default x ∧
    (applyConfigS (cfgDefault x) none (.mk a .nil)).1.attrs.value = a.value ∧
    (applyConfigS (cfgDefault x) none (.mk a .nil)).1.inner = .nil := by
  cases hd : check_default a.default x <;>
    simp [applyConfigS, cfgDefault, applyConfigSpecials, applyConfigLeaf,
      applyLeafDefault, applyLeafRest, hd, LeafCfg.present, StoreMap.isNil,
      Store.modifyAttrs, Store.inner, Store.attrs, deepMergeP]

/-- `apply_config` of `{'_value': v}` on a childless node whose value
check passes. -/
theorem applyConfig_cfgValue_ok (v : PVal) (a : Attrs)
    (h : check_value a.value v = .ok v) :
    (applyConfigS (cfgValue v) none (.mk a .nil)).2 = none ∧
    (applyConfigS (cfgValue v) none (.mk a .nil)).1.attrs.value = v ∧
    (applyConfigS (cfgValue v) none (.mk a .nil)).1.inner = .nil := by
  cases hv : v <;>
    simp [applyConfigS, cfgValue, applyConfigSpecials, applyConfigLeaf,
      applyLeafDefault, applyLeafRest, hv ▸ h, LeafCfg.present, StoreMap.isNil,
      Store.modifyAttrs, Store.inner, Store.attrs, deepMergeP]

/-- `apply_config` of `{'_value': v}` raises when the value check
conflicts. -/
theorem applyConfig_cfgValue_conflict (v : PVal) (a : Attrs) (e : Err)
    (h : check_value a.value v = .error e) :
    (applyConfigS (cfgValue v) none (.mk a .nil)).2 = some e := by
  simp [applyConfigS, cfgValue, applyConfigSpecials, applyConfigLeaf,
    applyLeafDefault, applyLeafRest, h, LeafCfg.present, StoreMap.isNil,
    Store.modifyAttrs, Store.inner, Store.attrs]

/-- A conflicting zero against a nonzero current default loses. -/
theorem check_default_skip (x y : PVal) (hx : pyIsZero x = true)
    (hy : pyIsZero y = false) (hxnn : x ≠ .pnone) : check_default x y = y := by
  have hne : pyEq y x = false := by
    cases h : pyEq y x
    · rfl
    · exact absurd (pyEq_isZero h) (by simp [hx, hy])
  simp [check_default, hxnn, hne, hy]

/-- A nonzero current default survives a conflicting zero. -/
theorem check_default_keep (x y : PVal) (hx : pyIsZero x = true)
    (hy : pyIsZero y = false) (hynn : y ≠ .pnone) : check_default y x = y := by
  have hne : pyEq x y = false := by
    cases h : pyEq x y
    · rfl
    · exact absurd (pyEq_isZero h) (by simp [hx, hy])
  simp [check_default, hynn, hne, hx, hy]

/-- C6: two `_default` declarations on the same fresh leaf where exactly
one value is zero resolve to the nonzero value in either declaration
order (and neither application raises); two conflicting `_value`
declarations raise on the second application. -/
theorem default_tiebreak_value_conflict :
    (∀ x y : PVal, pyIsZero x = true → pyIsZero y = false → y ≠ .pnone →
      ((applyConfigS (cfgDefault y) none
          (applyConfigS (cfgDefault x) none emptyStore).1).2 = none ∧
        (applyConfigS (cfgDefault y) none
          (applyConfigS (cfgDefault x) none emptyStore).1).1.attrs.default = y) ∧
      ((applyConfigS (cfgDefault x) none
          (applyConfigS (cfgDefault y) none emptyStore).1).2 = none ∧
        (applyConfigS (cfgDefault x) none
          (applyConfigS (cfgDefault y) none emptyStore).1).1.attrs.default = y)) ∧
    (∀ u w : PVal, u ≠ .pnone → pyEq w u = false →
      (applyConfigS (cfgValue u) none emptyStore).2 = none ∧
      (applyConfigS (cfgValue u) none emptyStore).1.attrs.value = u ∧
      (applyConfigS (cfgValue w) none
        (applyConfigS (cfgValue u) none emptyStore).1).2
          = some "_value schema conflict") := by
  constructor
  · intro x y hx hy hynn
    have hxnn : x ≠ .pnone := by
      intro h; subst h; simp [pyIsZero] at hx
    constructor
    · have h1 := applyConfig_cfgDefault x ({} : Attrs)
      rw [show (emptyStore : Store) = .mk {} .nil from rfl]
      have heta := Store.eta (applyConfigS (cfgDefault x) none (.mk {} .nil)).1
      rw [h1.2.2.2] at heta
      rw [heta]
      have h2 := applyConfig_cfgDefault y
        (applyConfigS (cfgDefault x) none (.mk {} .nil)).1.attrs
      refine ⟨h2.1, ?_⟩
      rw [h2.2.1, h1.2.1]
      have h0 : check_default ({} : Attrs).default x = x := by
        simp [check_default]
      rw [h0]
      exact check_default_skip x y hx hy hxnn
    · have h1 := applyConfig_cfgDefault y ({} : Attrs)
      rw [show (emptyStore : Store) = .mk {} .nil from rfl]
      have heta := Store.eta (applyConfigS (cfgDefault y) none (.mk {} .nil)).1
      rw [h1.2.2.2] at heta
      rw [heta]
      have h2 := applyConfig_cfgDefault x
        (applyConfigS (cfgDefault y) none (.mk {} .nil)).1.attrs
      refine ⟨h2.1, ?_⟩
      rw [h2.2.1, h1.2.1]
      have h0 : check_default ({} : Attrs).default y = y := by
        simp [check_default]
      rw [h0]
      exact check_default_keep x y hx hy hynn
  · intro u w hu hwu
    have hok : check_value ({} : Attrs).value u = .ok u := by
      simp [check_value]
    have h1 := applyConfig_cfgValue_ok u ({} : Attrs) hok
    rw [show (emptyStore : Store) = .mk {} .nil from rfl]
    refine ⟨h1.1, h1.2.1, ?_⟩
    have heta := Store.eta (applyConfigS (cfgValue u) none (.mk {} .nil)).1
    rw [h1.2.2] at heta
    rw [heta]
    have hconf : check_value
        (applyConfigS (cfgValue u) none (.mk {} .nil)).1.attrs.value w
        = .error "_value schema conflict" := by
      rw [h1.2.1]
      simp [check_value, hu, hwu]
    exact applyConfig_cfgValue_conflict w _ _ hconf

/-- Witness for C6 at `x = 0`, `y = 5`, `u = 1`, `w = 2`. -/
theorem default_tiebreak_value_conflict_witness :
    (pyIsZero (.pint 0) = true ∧ pyIsZero (.pint 5) = false ∧
      (PVal.pint 5) ≠ .pnone ∧ (PVal.pint 1) ≠ .pnone ∧
      pyEq (.pint 2) (.pint 1) = false) ∧
    (applyConfigS (cfgDefault (.pint 5)) none
      (applyConfigS (cfgDefault (.pint 0)) none emptyStore).1).1.attrs.default
      = .pint 5 ∧
    (applyConfigS (cfgValue (.pint 2)) none
      (applyConfigS (cfgValue (.pint 1)) none emptyStore).1).2
        = some "_value schema conflict" := by
  refine ⟨⟨by decide, by decide, by decide, by decide, by simp [pyEq]⟩, ?_, ?_⟩
  · exact ((default_tiebreak_value_conflict.1 (.pint 0) (.pint 5)
      (by decide) (by decide) (by decide)).1).2
  · exact (default_tiebreak_value_conflict.2 (.pint 1) (.pint 2)
      (by decide) (by simp [pyEq])).2.2

theorem scanStep_fst_ne_nil {σ U : Type} (O : SchedOracle σ U) (interval : ℚ)
    (st : LoopState σ U) (acc : List (ℕ × FrontEntry U) × Option ℚ)
    (pq : ℕ × ℚ) : (scanStep O interval st acc pq).1 ≠ [] := by
  unfold scanStep
  rcases acc with ⟨front, fs⟩
  dsimp only
  split
  case isTrue hany =>
    have hne : front ≠ [] := by
      intro h; rw [h] at hany; simp at hany
    split
    · dsimp only [frontSet]
      intro h
      exact hne (List.map_eq_nil.mp h)
    · exact hne
  case isFalse hany =>
    split
    · dsimp only [frontSet]
      intro h
      have h2 := List.map_eq_nil.mp h
      simp at h2
    · simp

theorem foldl_scan_ne_nil {σ U : Type} (O : SchedOracle σ U) (interval : ℚ)
    (st : LoopState σ U) :
    ∀ (l : List (ℕ × ℚ)) (acc : List (ℕ × FrontEntry U) × Option ℚ),
      l ≠ [] ∨ acc.1 ≠ [] → (l.foldl (scanStep O interval st) acc).1 ≠ [] := by
  intro l
  induction l with
  | nil =>
    intro acc h
    rcases h with h | h
    · exact absurd rfl h
    · simpa using h
  | cons q rest ih =>
    intro acc _
    simp only [List.foldl_cons]
    exact ih (scanStep O interval st acc q)
      (Or.inr (scanStep_fst_ne_nil O interval st acc q))

theorem tickScan_fst_ne_nil {σ U : Type} (O : SchedOracle σ U) (interval : ℚ)
    (st : LoopState σ U) (h : O.procs st.store ≠ []) :
    (tickScan O interval st).1 ≠ [] := by
  unfold tickScan
  exact foldl_scan_ne_nil O interval st _ _ (Or.inl h)

theorem tickScan_procs_nil {σ U : Type} (O : SchedOracle σ U) (interval : ℚ)
    (st : LoopState σ U) (h : O.procs st.store = []) :
    tickScan O interval st = ([], none) := by
  unfold tickScan
  rw [h]
  simp

theorem schedTick_front_nil {σ U : Type} (O : SchedOracle σ U) (interval : ℚ)
    (st : LoopState σ U) (h : (schedTick O interval st).front = []) :
    (schedTick O interval st).time = interval := by
  unfold schedTick at h ⊢
  dsimp only at h ⊢
  rcases hscan : tickScan O interval st with ⟨f, fs⟩
  rw [hscan] at h
  dsimp only at h ⊢
  by_cases hp : O.procs st.store = []
  · have h0 := tickScan_procs_nil O interval st hp
    rw [hscan] at h0
    cases h0
    simp
  · have hne := tickScan_fst_ne_nil O interval st hp
    rw [hscan] at hne
    simp only at hne
    cases fs with
    | none =>
      cases hf : f with
      | nil => exact absurd hf hne
      | cons a b =>
        rw [hf] at h
        simp at h
    | some v =>
      exact absurd (List.map_eq_nil.mp h) hne

theorem schedAsserts_eq {σ U : Type} (O : SchedOracle σ U) (interval : ℚ)
    (st fin : LoopState σ U) (h : schedAsserts O interval st = some fin) :
    fin = st ∧ ∀ pe ∈ st.front, pe.2.time = st.time ∧ st.time = interval ∧
      O.uIsEmpty pe.2.update = true := by
  unfold schedAsserts at h
  split at h
  case isTrue hall =>
    cases h
    refine ⟨rfl, ?_⟩
    intro pe hpe
    have hp := List.all_eq_true.mp hall pe hpe
    simp only [Bool.and_eq_true, decide_eq_true_eq] at hp
    exact ⟨hp.1.1, hp.1.2, hp.2⟩
  case isFalse => exact absurd h (by simp)

theorem schedLoop_sound {σ U : Type} (O : SchedOracle σ U) (interval : ℚ) :
    ∀ (n : ℕ) (st : LoopState σ U),
      (st.front = [] → st.time ≤ interval) →
      ∀ fin, schedLoop O interval n st = some fin →
        fin.time = interval ∧
        ∀ pe ∈ fin.front, pe.2.time = interval ∧ O.uIsEmpty pe.2.update = true := by
  intro n
  induction n with
  | zero => intro st hinv fin h; simp [schedLoop] at h
  | succ n ih =>
    intro st hinv fin h
    unfold schedLoop at h
    split at h
    case isTrue hlt =>
      exact ih (schedTick O interval st)
        (fun hf => le_of_eq (schedTick_front_nil O interval st hf)) fin h
    case isFalse hge =>
      obtain ⟨hfin, hall⟩ := schedAsserts_eq O interval st fin h
      subst hfin
      cases hfr : fin.front with
      | nil =>
        have hle := hinv hfr
        have heq := le_antisymm hle (le_of_not_lt hge)
        refine ⟨heq, ?_⟩
        intro pe hpe
        simp at hpe
      | cons pe rest =>
        have hhead := hall pe (by rw [hfr]; exact List.mem_cons_self pe rest)
        refine ⟨hhead.2.1, ?_⟩
        intro x hx
        have hxall := hall x (by rw [hfr]; exact hx)
        exact ⟨hxall.2.1 ▸ hxall.1, hxall.2.2⟩

/-- C1 (amended): for every non-negative interval, oracle and fuel, when
`Experiment.update` returns normally (terminates within fuel with every
epilogue assertion passing), global time has advanced to exactly the
requested interval and every front entry records that time with an empty
pending update. -/
theorem experiment_update_termination {σ U : Type} (O : SchedOracle σ U)
    (interval : ℚ) (s0 : σ) (fuel : ℕ) (fin : LoopState σ U)
    (hI : 0 ≤ interval) (h : experimentUpdate O interval s0 fuel = some fin) :
    fin.time = interval ∧
    ∀ pe ∈ fin.front, pe.2.time = interval ∧ O.uIsEmpty pe.2.update = true :=
  schedLoop_sound O interval fuel ⟨0, s0, []⟩ (fun _ => hI) fin h

/-- C1 counterexample: a negative interval returns normally (the loop
never runs, the assertions are vacuous) with global time 0, not equal to
the requested interval. -/
theorem experiment_update_negative_interval_cex :
    experimentUpdate trivOracle (-1) () 1 = some ⟨0, (), []⟩ ∧
    (⟨0, (), []⟩ : LoopState Unit Bool).time ≠ -1 := ⟨rfl, by norm_num⟩

/-- Witness for C1 at interval 1 with no processes. -/
theorem experiment_update_termination_witness :
    (0 : ℚ) ≤ 1 ∧ (⟨1, (), []⟩ : LoopState Unit Bool).time = 1 :=
  ⟨by norm_num,
    (experiment_update_termination trivOracle 1 () 2 ⟨1, (), []⟩
      (by norm_num) rfl).1⟩

/-- C2: on an idle tick (no process due) the code jumps to
`min(interval, front[last-scanned-process].time)` — here 6 — instead of
the spec's minimum future front time over all processes — here 4: the
idle-skip loop iterates `process_name` over `front.keys()` but indexes
`front[path]` with the stale scan variable. -/
theorem idle_skip_stale_path_bug :
    (schedTick idleOracle 10 idleState).time = 6 ∧
    frontTime idleState.front 1 = 4 ∧
    nextEventSpec idleState.front 10 = 4 ∧
    (schedTick idleOracle 10 idleState).time ≠ nextEventSpec idleState.front 10 := by
  refine ⟨rfl, rfl, rfl, ?_⟩
  rw [show (schedTick idleOracle 10 idleState).time = 6 from rfl,
    show nextEventSpec idleState.front 10 = 4 from rfl]
  norm_num

/-- C10 (amended): at a branch node without a subschema, an update whose
single key is not a structural directive and names no existing child is
silently ignored: no error, no node created, the root returned exactly
unchanged (and no topology updates). -/
theorem apply_update_unknown_key_ignored (fuel : ℕ) (root : Store) (k : String)
    (u : Upd) (rand : List Bool)
    (hbranch : root.inner.isNil = false)
    (hsub : root.attrs.subschema.isEmpty = true)
    (hk : root.inner.lookup k = none) :
    applyUpdateRoot (fuel + 3) root (.node {} (.cons k u .nil)) rand
      = ⟨root, rand, [], none⟩ := by
  simp [applyUpdateRoot, applyUpdateF, entriesLoopF, nodeAt, hbranch, hsub, hk]

/-- Witness for C10 at the concrete store `{'a': 5}` and key `zz`. -/
theorem apply_update_unknown_key_ignored_witness :
    (c10store.inner.isNil = false ∧ c10store.attrs.subschema.isEmpty = true ∧
      c10store.inner.lookup "zz" = none) ∧
    applyUpdateRoot 10 c10store (.node {} (.cons "zz" (.v (.pint 1)) .nil)) []
      = ⟨c10store, [], [], none⟩ :=
  ⟨⟨rfl, rfl, rfl⟩,
    apply_update_unknown_key_ignored 7 c10store "zz" (.v (.pint 1)) [] rfl rfl rfl⟩

/-- C10 counterexample: the update `{'_add': [...]}` at a branch without a
subschema has a key (`_add`) that names no existing child, yet
`apply_update` does not ignore it — it creates the node `b` (and raises no
error), contradicting the claim read over every update key. -/
theorem apply_update_add_key_not_ignored_cex :
    hasChild c10store "b" = false ∧
    (applyUpdateRoot 10 c10store c10addUpd []).err = none ∧
    hasChild (applyUpdateRoot 10 c10store c10addUpd []).root "b" = true :=
  ⟨rfl, rfl, rfl⟩

/-- C4 (amended): for every port schema (no leaf schema keys) and
topology, a topology key with no corresponding schema entry makes
`topology_ports` raise before wiring anything (the root is returned
untouched); the opposite mismatch is NOT fatal: a schema port with no
topology entry is merely logged and wired at the default path `(port,)`,
as the concrete instance with port `foo` and an empty topology shows. -/
theorem topology_mismatch_one_sided :
    (∀ (fuel : ℕ) (root : Store) (cur : List String) (schema : Config)
        (tm : TopoMap) (hp : Bool) (source : Option (List String)),
      schema.hasSchemaKeys = false →
      (mismatchTopology tm hp schema).isEmpty = false →
      topologyPortsTM (fuel + 1) root cur schema tm hp source
        = (root, some "topology has keys that are not in the schema")) ∧
    ((topologyPortsTM 10 emptyStore [] c4schema .nil false none).2 = none ∧
      hasChild (topologyPortsTM 10 emptyStore [] c4schema .nil false none).1 "foo"
        = true) := by
  refine ⟨?_, rfl, rfl⟩
  intro fuel root cur schema tm hp source h1 h2
  simp [topologyPortsTM, h1, h2]

/-- Witness for C4 at the concrete mismatching topology `{'bar': ...}`. -/
theorem topology_mismatch_one_sided_witness :
    (c4schema.hasSchemaKeys = false ∧
      (mismatchTopology c4topoBad false c4schema).isEmpty = false) ∧
    topologyPortsTM 10 emptyStore [] c4schema c4topoBad false none
      = (emptyStore, some "topology has keys that are not in the schema") :=
  ⟨⟨rfl, rfl⟩,
    topology_mismatch_one_sided.1 9 emptyStore [] c4schema c4topoBad false none
      rfl rfl⟩

/-- C4 counterexample: the schema `{'foo': {'_default': 0}}` has a port
key `foo` with no corresponding topology entry in the empty topology, yet
`topology_ports` raises no error (it wires `foo` at the default path). -/
theorem topology_schema_extra_not_fatal_cex :
    (c4schema.children.lookup "foo").isSome = true ∧
    (TopoMap.nil.lookup "foo") = (none : Option Topo) ∧
    (topologyPortsTM 10 emptyStore [] c4schema .nil false none).2 = none :=
  ⟨rfl, rfl, rfl⟩

/-- C3 (amended): division is atomic only up to its first mutation: a
`_divide` directive that fails before any daughter is generated — a
missing mother child (`KeyError`), an error raised by `divide_value`, or
`divide_value` returning `None` (making `zip` raise) — leaves the store
exactly unchanged while the error propagates.  (Failures after daughter
generation begins are NOT rolled back; see the counterexample.) -/
theorem divide_prefix_unchanged (fuel : ℕ) (root : Store) (dv : DivSpec)
    (rand : List Bool)
    (hbranch : (!root.inner.isNil || !root.attrs.subschema.isEmpty) = true) :
    (root.inner.lookup dv.mother = none →
      applyUpdateRoot (fuel + 1) root (.node { div := some dv } .nil) rand
        = ⟨root, rand, [], some "KeyError: mother"⟩) ∧
    (∀ m e rand', root.inner.lookup dv.mother = some m →
      divideValueS root m [dv.mother] rand = (.error e, rand') →
      applyUpdateRoot (fuel + 1) root (.node { div := some dv } .nil) rand
        = ⟨root, rand', [], some e⟩) ∧
    (∀ m rand', root.inner.lookup dv.mother = some m →
      divideValueS root m [dv.mother] rand = (.ok none, rand') →
      applyUpdateRoot (fuel + 1) root (.node { div := some dv } .nil) rand
        = ⟨root, rand', [], some "TypeError: zip argument is not iterable"⟩) := by
  refine ⟨?_, ?_, ?_⟩
  · intro hm
    simp [applyUpdateRoot, applyUpdateF, nodeAt, hbranch, hm]
  · intro m e rand' hm hdiv
    simp [applyUpdateRoot, applyUpdateF, nodeAt, hbranch, hm, hdiv]
  · intro m rand' hm hdiv
    simp [applyUpdateRoot, applyUpdateF, nodeAt, hbranch, hm, hdiv]

/-- Witness for C3 (amended) at a `_divide` whose mother `q` does not
exist in `c3store`. -/
theorem divide_prefix_unchanged_witness :
    ((!c3store.inner.isNil || !c3store.attrs.subschema.isEmpty) = true ∧
      c3store.inner.lookup "q" = none) ∧
    applyUpdateRoot 10 c3store
      (.node { div := some { mother := "q", daughters := [] } } .nil) []
      = ⟨c3store, [], [], some "KeyError: mother"⟩ :=
  ⟨⟨rfl, rfl⟩,
    (divide_prefix_unchanged 9 c3store { mother := "q", daughters := [] } []
      rfl).1 rfl⟩

/-- C3 counterexample: dividing mother `m` of `c3store` with daughter
paths `('d1',)` and `('..', 'd2')` raises midway (the second path climbs
above the root) AFTER daughter `d1` was generated: the call errors, yet
the store is changed — `d1` now exists, the mother is still present, and
the second daughter does not exist — so the update is neither fully
applied nor rejected. -/
theorem divide_not_atomic_cex :
    (applyUpdateRoot 20 c3store c3upd [true]).err
      = some "outer does not exist for path" ∧
    hasChild c3store "d1" = false ∧
    hasChild (applyUpdateRoot 20 c3store c3upd [true]).root "d1" = true ∧
    hasChild (applyUpdateRoot 20 c3store c3upd [true]).root "m" = true ∧
    hasChild (applyUpdateRoot 20 c3store c3upd [true]).root "d2" = false :=
  ⟨rfl, rfl, rfl, rfl, rfl⟩

/-- Structural induction over a `StoreMap` alone (child stores opaque). -/
theorem StoreMap.indOn {motive : StoreMap → Prop} (sm : StoreMap)
    (nil : motive .nil)
    (cons : ∀ k c rest, motive rest → motive (.cons k c rest)) : motive sm :=
  match sm with
  | .nil => nil
  | .cons k c rest => cons k c rest (StoreMap.indOn rest nil cons)

/-- Structural induction over a `PMap` alone. -/
theorem PMap.pmIndOn {motive : PMap → Prop} (m : PMap)
    (nil : motive .nil)
    (cons : ∀ k v rest, motive rest → motive (.cons k v rest)) : motive m :=
  match m with
  | .nil => nil
  | .cons k v rest => cons k v rest (PMap.pmIndOn rest nil cons)

/-- Structural induction over a `ConfigMap` alone. -/
theorem ConfigMap.cmIndOn {motive : ConfigMap → Prop} (m : ConfigMap)
    (nil : motive .nil)
    (cons : ∀ k c rest, motive rest → motive (.cons k c rest)) : motive m :=
  match m with
  | .nil => nil
  | .cons k c rest => cons k c rest (ConfigMap.cmIndOn rest nil cons)

/-- Children absent from the input map are absent from the collected
emission. -/
theorem emitDataM_lookup_none (sm : StoreMap) (m : PMap)
    (h : emitDataM sm = .ok m) (k : String) (hk : sm.lookup k = none) :
    m.lookup k = none := by
  induction sm using StoreMap.indOn generalizing m with
  | nil =>
    unfold emitDataM at h
    cases h
    rfl
  | cons k0 c0 rest ih =>
    unfold emitDataM at h
    have hne : ¬(k0 = k) := by
      intro he
      rw [StoreMap.lookup, if_pos he] at hk
      cases hk
    rw [StoreMap.lookup, if_neg hne] at hk
    cases he : emitDataS c0 with
    | error e => rw [he] at h; cases h
    | ok r =>
      rw [he] at h
      cases r with
      | none => exact ih m h hk
      | some v =>
        cases hm : emitDataM rest with
        | error e => rw [hm] at h; cases h
        | ok m' =>
          rw [hm] at h
          cases h
          rw [PMap.lookup, if_neg hne]
          exact ih m' hm hk

/-- Lookup in the collected emission tracks each child's own emission. -/
theorem emitDataM_lookup (sm : StoreMap) (m : PMap)
    (hnd : sm.keys.Nodup) (h : emitDataM sm = .ok m) (k : String) (c : Store)
    (hk : sm.lookup k = some c) :
    (emitDataS c = .ok none → m.lookup k = none) ∧
    (∀ v, emitDataS c = .ok (some v) → m.lookup k = some v) := by
  induction sm using StoreMap.indOn generalizing m with
  | nil => cases hk
  | cons k0 c0 rest ih =>
    unfold emitDataM at h
    rw [StoreMap.keys] at hnd
    have hnd' := List.nodup_cons.mp hnd
    by_cases hkk : k0 = k
    · subst hkk
      rw [StoreMap.lookup, if_pos rfl] at hk
      cases hk
      have hrest : rest.lookup k0 = none := by
        cases hr : rest.lookup k0 with
        | none => rfl
        | some x =>
          exfalso
          apply hnd'.1
          clear * - hr
          induction rest using StoreMap.indOn with
          | nil => cases hr
          | cons k1 c1 r ih2 =>
            rw [StoreMap.lookup] at hr
            rw [StoreMap.keys]
            by_cases h1 : k1 = k0
            · exact h1 ▸ List.mem_cons_self _ _
            · rw [if_neg h1] at hr
              exact List.mem_cons_of_mem _ (ih2 hr)
      cases he : emitDataS c with
      | error e => rw [he] at h; cases h
      | ok r =>
        rw [he] at h
        cases r with
        | none =>
          refine ⟨fun _ => emitDataM_lookup_none rest m h k0 hrest, ?_⟩
          intro v hv
          simp at hv
        | some v0 =>
          cases hm : emitDataM rest with
          | error e => rw [hm] at h; cases h
          | ok m' =>
            rw [hm] at h
            cases h
            refine ⟨?_, ?_⟩
            · intro hnone
              simp at hnone
            · intro v hv
              simp at hv
              cases hv
              rw [PMap.lookup, if_pos rfl]
    · rw [StoreMap.lookup, if_neg hkk] at hk
      cases he : emitDataS c0 with
      | error e => rw [he] at h; cases h
      | ok r =>
        rw [he] at h
        cases r with
        | none => exact ih m hnd'.2 h hk
        | some v0 =>
          cases hm : emitDataM rest with
          | error e => rw [hm] at h; cases h
          | ok m' =>
            rw [hm] at h
            cases h
            have hres := ih m' hnd'.2 hm hk
            refine ⟨?_, ?_⟩
            · intro hnone
              rw [PMap.lookup, if_neg hkk]
              exact hres.1 hnone
            · intro v hv
              rw [PMap.lookup, if_neg hkk]
              exact hres.2 v hv

/-- C9 (amended): `emit_data` collects exactly the emissions of the
children that yield something: a leaf with `emit` unset yields nothing and
is absent from the parent snapshot; a leaf with `emit` set yields its
value (serialized when a serializer is present); each yielded child value
appears in the parent snapshot under the child's key; BUT a node with
children always yields a dict — possibly empty — so branch subtrees
contributing no emitted leaf are still included by the parent (not
omitted, contra the claim; see the counterexample). -/
theorem emit_data_collects :
    (∀ (a : Attrs) (k : String) (c : Store) (rest : StoreMap) (r : Option PVal),
      emitDataS (.mk a (.cons k c rest)) = .ok r → ∃ m, r = some (.pdict m)) ∧
    (∀ a : Attrs, a.emit = false → emitDataS (.mk a .nil) = .ok none) ∧
    (∀ a : Attrs, a.emit = true → a.serializer = some .numpy →
      ∀ xs, a.value = .parr xs →
        emitDataS (.mk a .nil) = .ok (some (.plist (floatsToPList xs)))) ∧
    (∀ a : Attrs, a.emit = true → a.serializer = none → a.units = none →
      (∀ n b, a.value ≠ .pproc n b) →
      emitDataS (.mk a .nil) = .ok (some a.value)) ∧
    (∀ (sm : StoreMap) (m : PMap), sm.keys.Nodup → emitDataM sm = .ok m →
      ∀ k c, sm.lookup k = some c →
        (emitDataS c = .ok none → m.lookup k = none) ∧
        (∀ v, emitDataS c = .ok (some v) → m.lookup k = some v)) := by
  refine ⟨?_, ?_, ?_, ?_, ?_⟩
  · intro a k c rest r h
    rw [show emitDataS (.mk a (.cons k c rest))
        = (emitDataM (.cons k c rest)).map (fun m => some (.pdict m)) from rfl] at h
    cases hm : emitDataM (.cons k c rest) with
    | error e => rw [hm] at h; cases h
    | ok m =>
      rw [hm] at h
      cases h
      exact ⟨m, rfl⟩
  · intro a h
    unfold emitDataS
    rw [h]
    simp
  · intro a he hs xs hv
    unfold emitDataS
    rw [he, hs, hv]
    rfl
  · intro a he hs hu hp
    unfold emitDataS
    rw [he, hs, hu]
    cases hval : a.value <;> simp
    exact absurd hval (hp _ _)
  · intro sm m hnd h k c hk
    exact emitDataM_lookup sm m hnd h k c hk

/-- Witness for C9 on the concrete store `c9store`: the snapshot contains
the emitted leaf `c` with its value. -/
theorem emit_data_collects_witness :
    (c9store.inner.keys.Nodup ∧
      emitDataM c9store.inner
        = .ok (.cons "a" (.pdict .nil) (.cons "c" (.pint 7) .nil))) ∧
    PMap.lookup (.cons "a" (.pdict .nil) (.cons "c" (.pint 7) .nil)) "c"
      = some (.pint 7) := by
  refine ⟨⟨by decide, rfl⟩, ?_⟩
  exact (emit_data_collects.2.2.2.2 c9store.inner _ (by decide) rfl "c" _ rfl).2
    (.pint 7) rfl

/-- C9 counterexample: in `c9store` the subtree `a` contributes no emitted
leaf, yet `emit_data` keeps `a` (as an empty dict) in the snapshot instead
of omitting it; the spec-worded collector drops it. -/
theorem emit_data_empty_branch_cex :
    emitDataS c9store
      = .ok (some (.pdict (.cons "a" (.pdict .nil) (.cons "c" (.pint 7) .nil)))) ∧
    emitDataSpecS c9store = .ok (some (.pdict (.cons "c" (.pint 7) .nil))) ∧
    PMap.lookup (.cons "a" (.pdict .nil) (.cons "c" (.pint 7) .nil)) "a"
      = some (.pdict .nil) ∧
    PMap.lookup (.cons "c" (.pint 7) .nil) "a" = none :=
  ⟨rfl, rfl, rfl, rfl⟩

theorem StoreMap.lookup_setKey_self (m : StoreMap) (k : String) (v : Store) :
    (m.setKey k v).lookup k = some v := by
  induction m using StoreMap.indOn with
  | nil => simp [StoreMap.setKey, StoreMap.lookup]
  | cons k0 c0 rest ih =>
    by_cases h : k0 = k
    · simp [StoreMap.setKey, StoreMap.lookup, h]
    · simp [StoreMap.setKey, StoreMap.lookup, h, ih]

theorem StoreMap.lookup_setKey_ne (m : StoreMap) (k k' : String) (v : Store)
    (h : k' ≠ k) : (m.setKey k v).lookup k' = m.lookup k' := by
  have hne : ¬k = k' := fun he => h he.symm
  induction m using StoreMap.indOn with
  | nil =>
    simp only [StoreMap.setKey, StoreMap.lookup, if_neg hne]
  | cons k0 c0 rest ih =>
    by_cases h0 : k0 = k
    · subst h0
      rw [StoreMap.setKey, if_pos rfl, StoreMap.lookup, StoreMap.lookup,
        if_neg hne, if_neg hne]
    · rw [StoreMap.setKey, if_neg h0, StoreMap.lookup, StoreMap.lookup]
      by_cases h1 : k0 = k'
      · rw [if_pos h1, if_pos h1]
      · rw [if_neg h1, if_neg h1, ih]

theorem StoreMap.lookup_mem_keys (m : StoreMap) (k : String) (c : Store)
    (h : m.lookup k = some c) : k ∈ m.keys := by
  induction m using StoreMap.indOn with
  | nil => cases h
  | cons k0 c0 rest ih =>
    rw [StoreMap.lookup] at h
    rw [StoreMap.keys]
    by_cases h0 : k0 = k
    · exact h0 ▸ List.mem_cons_self _ _
    · rw [if_neg h0] at h
      exact List.mem_cons_of_mem _ (ih h)

theorem StoreMap.lookup_removeKey_self (m : StoreMap) (k : String)
    (hnd : m.keys.Nodup) : (m.removeKey k).lookup k = none := by
  induction m using StoreMap.indOn with
  | nil => rfl
  | cons k0 c0 rest ih =>
    rw [StoreMap.keys] at hnd
    have hnd' := List.nodup_cons.mp hnd
    by_cases h0 : k0 = k
    · subst h0
      rw [StoreMap.removeKey, if_pos rfl]
      cases hr : rest.lookup k0 with
      | none => rfl
      | some c => exact absurd (StoreMap.lookup_mem_keys rest k0 c hr) hnd'.1
    · rw [StoreMap.removeKey, if_neg h0, StoreMap.lookup, if_neg h0]
      exact ih hnd'.2

theorem StoreMap.lookup_removeKey_ne (m : StoreMap) (k k' : String)
    (h : k' ≠ k) : (m.removeKey k).lookup k' = m.lookup k' := by
  induction m using StoreMap.indOn with
  | nil => rfl
  | cons k0 c0 rest ih =>
    by_cases h0 : k0 = k
    · subst h0
      rw [StoreMap.removeKey, if_pos rfl, StoreMap.lookup,
        if_neg (fun he => h he.symm)]
    · rw [StoreMap.removeKey, if_neg h0, StoreMap.lookup, StoreMap.lookup]
      by_cases h1 : k0 = k'
      · simp [h1]
      · simp [h1, ih]

theorem StoreWFM_lookup (i : StoreMap) (k : String) (c : Store)
    (hm : StoreWFM i = true) (h : i.lookup k = some c) : StoreWF c = true := by
  induction i using StoreMap.indOn with
  | nil => cases h
  | cons k0 c0 rest ih =>
    unfold StoreWFM at hm
    have hm' := Bool.and_eq_true _ _ |>.mp hm
    rw [StoreMap.lookup] at h
    by_cases h0 : k0 = k
    · rw [if_pos h0] at h
      cases h
      exact hm'.1
    · rw [if_neg h0] at h
      exact ih hm'.2 h

theorem StoreWF_lookup (a : Attrs) (i : StoreMap) (k : String) (c : Store)
    (hWF : StoreWF (.mk a i) = true) (h : i.lookup k = some c) :
    StoreWF c = true := by
  unfold StoreWF at hWF
  exact StoreWFM_lookup i k c (Bool.and_eq_true _ _ |>.mp hWF).2 h

theorem StoreWF_keys_nodup (a : Attrs) (i : StoreMap)
    (hWF : StoreWF (.mk a i) = true) : i.keys.Nodup := by
  unfold StoreWF at hWF
  exact of_decide_eq_true (Bool.and_eq_true _ _ |>.mp hWF).1

theorem StoreWF_nodeAt (root : Store) (addr : List String) (n : Store)
    (hWF : StoreWF root = true) (h : nodeAt root addr = some n) :
    StoreWF n = true := by
  induction addr generalizing root with
  | nil => rw [nodeAt] at h; cases h; exact hWF
  | cons a rest ih =>
    rw [nodeAt] at h
    cases hl : root.inner.lookup a with
    | none => rw [hl] at h; cases h
    | some c =>
      rw [hl] at h
      rcases root with ⟨ra, ri⟩
      exact ih c (StoreWF_lookup ra ri a c hWF hl) h

theorem nodeAt_append (root : Store) (xs ys : List String) :
    nodeAt root (xs ++ ys) = (nodeAt root xs).bind fun n => nodeAt n ys := by
  induction xs generalizing root with
  | nil => rfl
  | cons a rest ih =>
    show nodeAt root (a :: (rest ++ ys)) = _
    rw [nodeAt, nodeAt]
    cases hl : root.inner.lookup a with
    | none => rfl
    | some c => exact ih c

theorem resolvePath_cons (root : Store) (cur : List String) (step : String)
    (rest : List String) :
    resolvePath root cur (step :: rest) =
      if step = ".." then
        match cur with
        | [] => none
        | _ => resolvePath root cur.dropLast rest
      else
        match nodeAt root (cur ++ [step]) with
        | some _ => resolvePath root (cur ++ [step]) rest
        | none => none := by
  cases cur <;> rfl

theorem resolve_det (r1 r2 : Store) (cur rel : List String) (t1 t2 : List String)
    (h1 : resolvePath r1 cur rel = some t1)
    (h2 : resolvePath r2 cur rel = some t2) : t1 = t2 := by
  induction rel generalizing cur with
  | nil =>
    rw [resolvePath] at h1 h2
    cases h1; cases h2; rfl
  | cons step rest ih =>
    rw [resolvePath_cons] at h1 h2
    by_cases hs : step = ".."
    · rw [if_pos hs] at h1 h2
      cases cur with
      | nil => simp at h1
      | cons c cs => exact ih _ h1 h2
    · rw [if_neg hs] at h1 h2
      cases hn1 : nodeAt r1 (cur ++ [step]) with
      | none => rw [hn1] at h1; cases h1
      | some n1 =>
        rw [hn1] at h1
        cases hn2 : nodeAt r2 (cur ++ [step]) with
        | none => rw [hn2] at h2; cases h2
        | some n2 =>
          rw [hn2] at h2
          exact ih _ h1 h2

theorem resolve_append (root : Store) (cur xs ys : List String) :
    resolvePath root cur (xs ++ ys) =
      (resolvePath root cur xs).bind fun m => resolvePath root m ys := by
  induction xs generalizing cur with
  | nil => rfl
  | cons step rest ih =>
    show resolvePath root cur (step :: (rest ++ ys)) = _
    rw [resolvePath_cons, resolvePath_cons]
    by_cases hs : step = ".."
    · rw [if_pos hs, if_pos hs]
      cases cur with
      | nil => rfl
      | cons c cs => exact ih _
    · rw [if_neg hs, if_neg hs]
      cases hn : nodeAt root (cur ++ [step]) with
      | none => rfl
      | some n => exact ih _

theorem updateAt_nodeAt (root : Store) (addr : List String) (tnode : Store)
    (f : Store → Store) (h : nodeAt root addr = some tnode) :
    nodeAt (updateAt root addr f) addr = some (f tnode) := by
  induction addr generalizing root with
  | nil => rw [nodeAt] at h; cases h; rfl
  | cons a rest ih =>
    rw [nodeAt] at h
    cases hl : root.inner.lookup a with
    | none => rw [hl] at h; cases h
    | some c =>
      rw [hl] at h
      rw [updateAt, hl, nodeAt]
      have hwi : (root.withInner (root.inner.setKey a (updateAt c rest f))).inner
          = root.inner.setKey a (updateAt c rest f) := by
        cases root; rfl
      rw [hwi, StoreMap.lookup_setKey_self]
      exact ih c h

mutual

theorem allDeleted_markDeletedS (s : Store) :
    allDeletedS (markDeletedS s) = true :=
  match s with
  | .mk a i => by
    rw [markDeletedS, allDeletedS, allDeleted_markDeletedM i]
    rfl

theorem allDeleted_markDeletedM (m : StoreMap) :
    allDeletedM (markDeletedM m) = true :=
  match m with
  | .nil => rfl
  | .cons k c rest => by
    rw [markDeletedM, allDeletedM, allDeleted_markDeletedS c,
      allDeleted_markDeletedM rest]
    rfl

end

theorem deletePath_concat (root : Store) (cur pre tgt : List String) (k : String)
    (lost : Store)
    (hres : resolvePath root cur pre = some tgt)
    (hbl : (nodeAt root tgt).bind (fun n => n.inner.lookup k) = some lost) :
    deletePath root cur (pre ++ [k]) =
      (updateAt root tgt (fun n => n.withInner (n.inner.removeKey k)),
        some (markDeletedS lost), none) := by
  have hd : (pre ++ [k]).dropLast = pre := by simp
  have hl : (pre ++ [k]).getLast? = some k := by simp
  cases hp : pre ++ [k] with
  | nil => cases pre <;> simp at hp
  | cons p ps =>
    rw [deletePath, ← hp, hd, hl]
    simp only [hres, hbl]

/-- C8: for a well-formed store and a non-empty path addressing an
existing child `k` of a resolvable parent, `delete_path` detaches exactly
that child (the root becomes `remAt root tgt k`), returns the detached
subtree with every node tombstoned, raises no error, a subsequent
`get_path` of the deleted path returns `None`, and every node of the
removed subtree has its `deleted` flag set. -/
theorem delete_path_removes_and_marks (root tnode lost : Store)
    (pre tgt : List String) (k : String)
    (hWF : StoreWF root = true) (hk : k ≠ "..")
    (hres : resolvePath root [] pre = some tgt)
    (hnode : nodeAt root tgt = some tnode)
    (hlook : tnode.inner.lookup k = some lost) :
    deletePath root [] (pre ++ [k]) =
      (remAt root tgt k, some (markDeletedS lost), none) ∧
    getPath (remAt root tgt k) [] (pre ++ [k]) = none ∧
    allDeletedS (markDeletedS lost) = true := by
  have hbl : (nodeAt root tgt).bind (fun n => n.inner.lookup k) = some lost := by
    rw [hnode]
    exact hlook
  refine ⟨deletePath_concat root [] pre tgt k lost hres hbl, ?_, allDeleted_markDeletedS lost⟩
  have hrem : nodeAt (remAt root tgt k) tgt
      = some (tnode.withInner (tnode.inner.removeKey k)) :=
    updateAt_nodeAt root tgt tnode _ hnode
  have hWFt : StoreWF tnode = true := StoreWF_nodeAt root tgt tnode hWF hnode
  have hnd : tnode.inner.keys.Nodup := by
    rcases tnode with ⟨ta, ti⟩
    exact StoreWF_keys_nodup ta ti hWFt
  have hnone : nodeAt (remAt root tgt k) (tgt ++ [k]) = none := by
    rw [nodeAt_append, hrem]
    show nodeAt (tnode.withInner (tnode.inner.removeKey k)) [k] = none
    rw [nodeAt]
    have hwi : (tnode.withInner (tnode.inner.removeKey k)).inner
        = tnode.inner.removeKey k := by
      cases tnode
      rfl
    rw [hwi, StoreMap.lookup_removeKey_self _ _ hnd]
  rw [getPath, resolve_append]
  cases hr : resolvePath (remAt root tgt k) [] pre with
  | none => rfl
  | some tgt2 =>
    have ht : tgt2 = tgt := resolve_det (remAt root tgt k) root [] pre tgt2 tgt hr hres
    subst ht
    show (resolvePath (remAt root tgt2 k) tgt2 [k]).bind (nodeAt (remAt root tgt2 k)) = none
    rw [resolvePath_cons, if_neg hk, hnone]
    rfl

/-- C8 witness: on `{'a': {'b': 5}}`, deleting `('a', 'b')` removes the
leaf, a later `get_path(('a', 'b'))` returns `None`, and the detached
leaf is marked deleted. -/
theorem delete_path_removes_and_marks_witness :
    deletePath c8store [] (["a"] ++ ["b"]) =
      (remAt c8store ["a"] "b", some (markDeletedS c8leafB), none) ∧
    getPath (remAt c8store ["a"] "b") [] (["a"] ++ ["b"]) = none ∧
    allDeletedS (markDeletedS c8leafB) = true :=
  delete_path_removes_and_marks c8store c8nodeA c8leafB ["a"] ["a"] "b"
    (by rfl) (by decide) (by rfl) (by rfl) (by rfl)

/-- C8 counterexample: for the empty path the claim fails — `delete_path(())`
clears the node in place without detaching it, so `get_path(())` still
returns the node (not `None`) and the node is not marked deleted. -/
theorem delete_path_empty_cex :
    (deletePath c8store [] []).2.2 = none ∧
    (getPath (deletePath c8store [] []).1 [] []).isSome = true ∧
    allDeletedS (deletePath c8store [] []).1 = false :=
  ⟨rfl, rfl, rfl⟩

theorem orElse_isSome {α : Type} (x y : Option α) :
    (y.orElse fun _ => x).isSome = (x.isSome || y.isSome) := by
  cases x <;> cases y <;> rfl

theorem orElse_isNone {α : Type} (x y : Option α) :
    (y.orElse fun _ => x).isNone = (x.isNone && y.isNone) := by
  cases x <;> cases y <;> rfl

theorem mergeDV_isSome (x y : Option PVal) :
    (mergeDV x y).isSome = (x.isSome || y.isSome) := by
  cases x with
  | none => cases y <;> rfl
  | some v =>
    cases y with
    | none => cases v <;> rfl
    | some w => cases v <;> cases w <;> rfl

theorem ConfigMap.setKey_ne_nil (a : ConfigMap) (k : String) (c : Config) :
    ConfigMap.setKey a k c ≠ .nil := by
  cases a with
  | nil => exact fun h => ConfigMap.noConfusion h
  | cons k0 c0 rest =>
    rw [ConfigMap.setKey]
    split <;> exact fun h => ConfigMap.noConfusion h

theorem deepMergeCM_eq_nil (b a : ConfigMap) :
    (deepMergeCM a b = .nil) ↔ (a = .nil ∧ b = .nil) := by
  induction b using ConfigMap.cmIndOn generalizing a with
  | nil =>
    rw [deepMergeCM]
    simp
  | cons k c rest ih =>
    rw [deepMergeCM]
    constructor
    · intro h
      exfalso
      cases hl : ConfigMap.lookup a k with
      | some c0 =>
        rw [hl] at h
        exact ConfigMap.setKey_ne_nil a k _ ((ih _).mp h).1
      | none =>
        rw [hl] at h
        exact ConfigMap.setKey_ne_nil a k _ ((ih _).mp h).1
    · rintro ⟨_, h⟩
      exact ConfigMap.noConfusion h

theorem deepMerge_star_isNone (a b : Config) :
    (deepMergeConfig a b).star.isNone = (a.star.isNone && b.star.isNone) := by
  rcases a with ⟨astar, asub, atopo, adiv, aleaf, ach⟩
  rcases b with ⟨bstar, bsub, btopo, bdiv, bleaf, bch⟩
  rw [deepMergeConfig.eq_def]
  cases astar <;> cases bstar <;> rfl

theorem deepMerge_sub_isNone (a b : Config) :
    (deepMergeConfig a b).subschema.isNone
      = (a.subschema.isNone && b.subschema.isNone) := by
  rcases a with ⟨astar, asub, atopo, adiv, aleaf, ach⟩
  rcases b with ⟨bstar, bsub, btopo, bdiv, bleaf, bch⟩
  rw [deepMergeConfig.eq_def]
  cases asub <;> cases bsub <;> rfl

theorem deepMerge_topo_isNone (a b : Config) :
    (deepMergeConfig a b).subtopology.isNone
      = (a.subtopology.isNone && b.subtopology.isNone) := by
  rcases a with ⟨astar, asub, atopo, adiv, aleaf, ach⟩
  rcases b with ⟨bstar, bsub, btopo, bdiv, bleaf, bch⟩
  rw [deepMergeConfig.eq_def]
  cases atopo <;> cases btopo <;> rfl

theorem deepMerge_div_isNone (a b : Config) :
    (deepMergeConfig a b).divider.isNone
      = (a.divider.isNone && b.divider.isNone) := by
  rcases a with ⟨astar, asub, atopo, adiv, aleaf, ach⟩
  rcases b with ⟨bstar, bsub, btopo, bdiv, bleaf, bch⟩
  rw [deepMergeConfig.eq_def]
  cases adiv <;> cases bdiv <;> rfl

theorem deepMerge_present (a b : Config) :
    (deepMergeConfig a b).leaf.present = (a.leaf.present || b.leaf.present) := by
  rcases a with ⟨astar, asub, atopo, adiv, ⟨ad, av, au, ap, ae, as⟩, ach⟩
  rcases b with ⟨bstar, bsub, btopo, bdiv, ⟨bd, bv, bu, bp, be, bs⟩, bch⟩
  rw [deepMergeConfig.eq_def]
  cases ap <;> cases bp <;>
    simp [Config.leaf, LeafCfg.present, mergeDV_isSome, orElse_isSome,
      Bool.or_assoc, Bool.or_comm, Bool.or_left_comm]

theorem deepMerge_children_nil (a b : Config) :
    ((deepMergeConfig a b).children matches ConfigMap.nil)
      = ((a.children matches ConfigMap.nil) && (b.children matches ConfigMap.nil)) := by
  rcases a with ⟨astar, asub, atopo, adiv, aleaf, ach⟩
  rcases b with ⟨bstar, bsub, btopo, bdiv, bleaf, bch⟩
  rw [deepMergeConfig.eq_def]
  simp only [Config.children]
  cases hm : deepMergeCM ach bch with
  | nil =>
    obtain ⟨ha, hb⟩ := (deepMergeCM_eq_nil bch ach).mp hm
    subst ha
    subst hb
    rfl
  | cons k c rest =>
    cases ach with
    | cons k0 c0 r0 => rfl
    | nil =>
      cases bch with
      | cons k1 c1 r1 => rfl
      | nil =>
        rw [deepMergeCM] at hm
        cases hm

theorem isEmpty_deepMerge (a b : Config) :
    (deepMergeConfig a b).isEmpty = (a.isEmpty && b.isEmpty) := by
  rw [Config.isEmpty, Config.isEmpty, Config.isEmpty,
    deepMerge_star_isNone, deepMerge_sub_isNone, deepMerge_topo_isNone,
    deepMerge_div_isNone, deepMerge_present, deepMerge_children_nil]
  simp [Bool.not_or, Bool.and_assoc, Bool.and_comm, Bool.and_left_comm]

theorem PMap.pmLookup_mem_keys (m : PMap) (k : String) (v : PVal)
    (h : m.lookup k = some v) : k ∈ m.keys := by
  induction m using PMap.pmIndOn with
  | nil => cases h
  | cons k0 v0 rest ih =>
    rw [PMap.lookup] at h
    rw [PMap.keys]
    by_cases h0 : k0 = k
    · exact h0 ▸ List.mem_cons_self _ _
    · rw [if_neg h0] at h
      exact List.mem_cons_of_mem _ (ih h)

mutual

theorem pyEq_refl (v : PVal) (h : PVal.WF v = true) : pyEq v v = true :=
  match v, h with
  | .pnone, _ => by simp [pyEq]
  | .pbool a, _ => by simp [pyEq]
  | .pint n, _ => by simp [pyEq]
  | .pfloat q, _ => by simp [pyEq]
  | .pinf, _ => by simp [pyEq]
  | .pstr s, _ => by simp [pyEq]
  | .pquant m u, _ => by simp [pyEq]
  | .parr a, _ => by simp [pyEq]
  | .pproc i p, _ => by simp [pyEq]
  | .plist xs, h => by
    rw [PVal.WF] at h
    simp only [pyEq]
    exact pyEqList_refl xs h
  | .pdict m, h => by
    rw [PVal.WF] at h
    have h' := Bool.and_eq_true _ _ |>.mp h
    simp only [pyEq, pyEqMap]
    rw [pyEqSub_refl_aux m m h'.2 (of_decide_eq_true h'.1) (fun _ _ hl => hl)]
    simp

theorem pyEqList_refl (xs : PList) (h : PList.WF xs = true) :
    pyEqList xs xs = true :=
  match xs, h with
  | .nil, _ => by simp [pyEqList]
  | .cons v rest, h => by
    rw [PList.WF] at h
    have h' := Bool.and_eq_true _ _ |>.mp h
    rw [pyEqList, pyEq_refl v h'.1, pyEqList_refl rest h'.2]
    rfl

theorem pyEqSub_refl_aux (sub a : PMap) (hw : PMap.WF sub = true)
    (hnd : sub.keys.Nodup)
    (hsub : ∀ k v, sub.lookup k = some v → a.lookup k = some v) :
    pyEqSub sub a = true :=
  match sub, hw, hnd, hsub with
  | .nil, _, _, _ => by rw [pyEqSub]
  | .cons k v rest, hw, hnd, hsub => by
    have hkv : a.lookup k = some v := hsub k v (by rw [PMap.lookup, if_pos rfl])
    rw [PMap.WF] at hw
    have hw' := Bool.and_eq_true _ _ |>.mp hw
    rw [PMap.keys] at hnd
    have hnd' := List.nodup_cons.mp hnd
    have hrest : ∀ k' v', rest.lookup k' = some v' → a.lookup k' = some v' := by
      intro k' v' hl
      have hne : ¬(k = k') := by
        intro he
        exact hnd'.1 (he ▸ PMap.pmLookup_mem_keys rest k' v' hl)
      exact hsub k' v' (by rw [PMap.lookup, if_neg hne]; exact hl)
    rw [pyEqSub, hkv]
    show (pyEq v v && pyEqSub rest a) = true
    rw [pyEq_refl v hw'.1, pyEqSub_refl_aux rest a hw'.2 hnd'.2 hrest]
    rfl

end

theorem check_default_self (d : PVal) (h : PVal.WF d = true) :
    check_default d d = d := by
  rw [check_default]
  by_cases h2 : d = .pnone
  · rw [if_pos h2]
  · rw [if_neg h2]
    simp [pyEq_refl d h]

theorem check_default_idem (cur d : PVal) (h : PVal.WF d = true) :
    check_default (check_default cur d) d = check_default cur d := by
  by_cases h1 : cur = .pnone
  · rw [show check_default cur d = d by rw [check_default, if_pos h1]]
    exact check_default_self d h
  · by_cases h2 : pyEq d cur = true
    · rw [show check_default cur d = d by
        rw [check_default, if_neg h1, if_pos h2]]
      exact check_default_self d h
    · by_cases h3 : (pyIsZero d && !pyIsZero cur) = true
      · have hr : check_default cur d = cur := by
          rw [check_default, if_neg h1, if_neg h2, if_pos h3]
        rw [hr]
        exact hr
      · have hr : check_default cur d = d := by
          rw [check_default, if_neg h1, if_neg h2, if_neg h3]
        rw [hr]
        exact check_default_self d h

theorem check_value_self (v : PVal) (h : PVal.WF v = true) :
    check_value v v = .ok v := by
  rw [check_value]
  by_cases h1 : v = .pnone
  · rw [if_pos h1]
  · rw [if_neg h1]
    simp [pyEq_refl v h]

theorem check_value_ok_eq (cur new x : PVal)
    (h : check_value cur new = .ok x) : x = new := by
  rw [check_value] at h
  by_cases h1 : cur = .pnone
  · rw [if_pos h1] at h
    cases h
    rfl
  · rw [if_neg h1] at h
    by_cases h2 : pyEq new cur = true
    · rw [if_pos h2] at h
      cases h
      rfl
    · rw [if_neg h2] at h
      cases h

theorem modifyAttrs_attrs (s : Store) (f : Attrs → Attrs) :
    (s.modifyAttrs f).attrs = f s.attrs := by
  cases s
  rfl

theorem modifyAttrs_inner (s : Store) (f : Attrs → Attrs) :
    (s.modifyAttrs f).inner = s.inner := by
  cases s
  rfl

theorem withInner_inner (s : Store) (i : StoreMap) :
    (s.withInner i).inner = i := by
  cases s
  rfl

theorem withInner_attrs (s : Store) (i : StoreMap) :
    (s.withInner i).attrs = s.attrs := by
  cases s
  rfl

theorem Store.mk_attrs (a : Attrs) (i : StoreMap) : (Store.mk a i).attrs = a := rfl

theorem Store.mk_inner (a : Attrs) (i : StoreMap) : (Store.mk a i).inner = i := rfl

mutual

theorem cfgEqS_refl (s : Store) : cfgEqS s s = true :=
  match s with
  | .mk a i => by
    rw [cfgEqS, cfgEqM_refl i]
    simp

theorem cfgEqM_refl (m : StoreMap) : cfgEqM m m = true :=
  match m with
  | .nil => by rw [cfgEqM]
  | .cons k c rest => by
    rw [cfgEqM, cfgEqS_refl c, cfgEqM_refl rest]
    simp

end

theorem cfgEqS_fields (a a' : Attrs) (i i' : StoreMap)
    (h : cfgEqS (.mk a i) (.mk a' i') = true) :
    a.default = a'.default ∧ a.value = a'.value ∧ a.updater = a'.updater
      ∧ a.leaf = a'.leaf ∧ a.subschema.isEmpty = a'.subschema.isEmpty
      ∧ cfgEqM i i' = true := by
  rw [cfgEqS] at h
  simp only [Bool.and_eq_true, beq_iff_eq, decide_eq_true_eq] at h
  exact ⟨h.1.1.1.1.1, h.1.1.1.1.2, h.1.1.1.2, h.1.1.2, h.1.2, h.2⟩

theorem cfgEqM_nil_right (m : StoreMap) (h : cfgEqM m .nil = true) :
    m = .nil := by
  cases m with
  | nil => rfl
  | cons k c rest =>
    simp [cfgEqM] at h

theorem cfgEqM_isNil (m m' : StoreMap) (h : cfgEqM m m' = true) :
    m.isNil = m'.isNil := by
  cases m with
  | nil =>
    cases m' with
    | nil => rfl
    | cons k c rest => simp [cfgEqM] at h
  | cons k c rest =>
    cases m' with
    | nil => simp [cfgEqM] at h
    | cons k' c' rest' => rfl

theorem cfgEqM_lookup_some (m m' : StoreMap) (k : String) (y : Store)
    (h : cfgEqM m m' = true) (hy : m'.lookup k = some y) :
    ∃ x, m.lookup k = some x ∧ cfgEqS x y = true := by
  induction m using StoreMap.indOn generalizing m' with
  | nil =>
    cases m' with
    | nil => cases hy
    | cons k' c' rest' => simp [cfgEqM] at h
  | cons k0 c rest ih =>
    cases m' with
    | nil => simp [cfgEqM] at h
    | cons k0' c' rest' =>
      rw [cfgEqM] at h
      simp only [Bool.and_eq_true, beq_iff_eq] at h
      obtain ⟨⟨hk, hc⟩, hr⟩ := h
      subst hk
      rw [StoreMap.lookup] at hy
      rw [StoreMap.lookup]
      by_cases h0 : k0 = k
      · rw [if_pos h0] at hy
        rw [if_pos h0]
        cases hy
        exact ⟨c, rfl, hc⟩
      · rw [if_neg h0] at hy
        rw [if_neg h0]
        exact ih rest' hr hy

theorem cfgEqM_setKey (m m' : StoreMap) (k : String) (x y : Store)
    (h : cfgEqM m m' = true) (hy : m'.lookup k = some y)
    (hxy : cfgEqS x y = true) :
    cfgEqM (m.setKey k x) m' = true := by
  induction m using StoreMap.indOn generalizing m' with
  | nil =>
    cases m' with
    | nil => cases hy
    | cons k' c' rest' => simp [cfgEqM] at h
  | cons k0 c rest ih =>
    cases m' with
    | nil => simp [cfgEqM] at h
    | cons k0' c' rest' =>
      rw [cfgEqM] at h
      simp only [Bool.and_eq_true, beq_iff_eq] at h
      obtain ⟨⟨hk, hc⟩, hr⟩ := h
      subst hk
      rw [StoreMap.lookup] at hy
      rw [StoreMap.setKey]
      by_cases h0 : k0 = k
      · rw [if_pos h0] at hy
        rw [if_pos h0, cfgEqM]
        cases hy
        simp [hxy, hr]
      · rw [if_neg h0] at hy
        rw [if_neg h0, cfgEqM]
        simp [hc, ih rest' hr hy]

theorem applyConfigCM_frame (cm : ConfigMap) (source : Option (List String))
    (sm tm : StoreMap) (k : String)
    (h : applyConfigCM cm source sm = (tm, none)) (hk : k ∉ cm.keys) :
    tm.lookup k = sm.lookup k := by
  induction cm using ConfigMap.cmIndOn generalizing sm with
  | nil =>
    rw [applyConfigCM] at h
    cases h
    rfl
  | cons k0 cc rest ih =>
    rw [ConfigMap.keys] at hk
    simp only [List.mem_cons, not_or] at hk
    rw [applyConfigCM] at h
    cases hl : StoreMap.lookup sm k0 with
    | none =>
      rw [hl] at h
      cases hc : applyConfigS cc source emptyStore with
      | mk child e =>
        rw [hc] at h
        cases e with
        | some e0 =>
          have h2 : (some e0 : Option Err) = none := congrArg Prod.snd h
          cases h2
        | none =>
          have h3 : applyConfigCM rest source (sm.setKey k0 child) = (tm, none) := h
          rw [ih (sm.setKey k0 child) h3 hk.2,
            StoreMap.lookup_setKey_ne sm k0 k child hk.1]
    | some child0 =>
      rw [hl] at h
      cases hc : applyConfigS cc source child0 with
      | mk child e =>
        cases e with
        | some e0 =>
          simp only [hc] at h
          exact Option.noConfusion (congrArg Prod.snd h)
        | none =>
          simp only [hc] at h
          rw [ih (sm.setKey k0 child) h hk.2,
            StoreMap.lookup_setKey_ne sm k0 k child hk.1]

theorem specials_attrs (cstar csub : Option Config) (ctopo : Option TopoMap)
    (cdiv : Option DividerDecl) (source : Option (List String)) (s : Store) :
    (applyConfigSpecials cstar csub ctopo cdiv source s).inner = s.inner
    ∧ (applyConfigSpecials cstar csub ctopo cdiv source s).attrs.default
        = s.attrs.default
    ∧ (applyConfigSpecials cstar csub ctopo cdiv source s).attrs.value
        = s.attrs.value
    ∧ (applyConfigSpecials cstar csub ctopo cdiv source s).attrs.leaf
        = s.attrs.leaf
    ∧ (applyConfigSpecials cstar csub ctopo cdiv source s).attrs.updater
        = s.attrs.updater
    ∧ (applyConfigSpecials cstar csub ctopo cdiv source s).attrs.subschema.isEmpty
        = (s.attrs.subschema.isEmpty
            && (match cstar with | some q => q.isEmpty | none => true)
            && (match csub with | some q => q.isEmpty | none => true)) := by
  rcases s with ⟨a, i⟩
  cases cstar <;> cases csub <;> cases ctopo <;> cases cdiv <;> cases source <;>
    exact ⟨rfl, rfl, rfl, rfl, rfl, by
      dsimp only [applyConfigSpecials, Store.modifyAttrs, Store.attrs]
      simp [isEmpty_deepMerge, Bool.and_assoc]⟩

theorem applyLeafDefault_attrs (cd : Option PVal) (cv : Option PVal)
    (cu : Option UpdaterName) (cp : Option PMap) (ce : Option Bool)
    (cs : Option SerializerName) (s : Store) :
    (applyLeafDefault ⟨cd, cv, cu, cp, ce, cs⟩ s).inner = s.inner
    ∧ (applyLeafDefault ⟨cd, cv, cu, cp, ce, cs⟩ s).attrs.value = s.attrs.value
    ∧ (applyLeafDefault ⟨cd, cv, cu, cp, ce, cs⟩ s).attrs.leaf = s.attrs.leaf
    ∧ (applyLeafDefault ⟨cd, cv, cu, cp, ce, cs⟩ s).attrs.updater = s.attrs.updater
    ∧ (applyLeafDefault ⟨cd, cv, cu, cp, ce, cs⟩ s).attrs.subschema
        = s.attrs.subschema
    ∧ (applyLeafDefault ⟨cd, cv, cu, cp, ce, cs⟩ s).attrs.default
        = (match cd with
           | some d => check_default s.attrs.default d
           | none => s.attrs.default) := by
  rcases s with ⟨a, i⟩
  cases cd with
  | none => exact ⟨rfl, rfl, rfl, rfl, rfl, rfl⟩
  | some d =>
    cases hd : check_default a.default d <;>
      (rw [applyLeafDefault]
       dsimp only [Store.attrs]
       rw [hd]
       exact ⟨rfl, rfl, rfl, rfl, rfl, rfl⟩)

theorem applyLeafRest_attrs (cleaf : LeafCfg) (cch : ConfigMap)
    (source : Option (List String)) (s : Store) :
    (applyLeafRest cleaf cch source s).inner = s.inner
    ∧ (applyLeafRest cleaf cch source s).attrs.value = s.attrs.value
    ∧ (applyLeafRest cleaf cch source s).attrs.default = s.attrs.default
    ∧ (applyLeafRest cleaf cch source s).attrs.leaf = s.attrs.leaf
    ∧ (applyLeafRest cleaf cch source s).attrs.subschema = s.attrs.subschema
    ∧ (applyLeafRest cleaf cch source s).attrs.updater
        = some (cleaf.updater.getD (s.attrs.updater.getD .accumulate)) := by
  rcases s with ⟨a, i⟩
  cases source <;> exact ⟨rfl, rfl, rfl, rfl, rfl, rfl⟩

theorem specials_inner (cstar csub : Option Config) (ctopo : Option TopoMap)
    (cdiv : Option DividerDecl) (source : Option (List String)) (s : Store) :
    (applyConfigSpecials cstar csub ctopo cdiv source s).inner = s.inner :=
  (specials_attrs cstar csub ctopo cdiv source s).1

theorem specials_default (cstar csub : Option Config) (ctopo : Option TopoMap)
    (cdiv : Option DividerDecl) (source : Option (List String)) (s : Store) :
    (applyConfigSpecials cstar csub ctopo cdiv source s).attrs.default
      = s.attrs.default :=
  (specials_attrs cstar csub ctopo cdiv source s).2.1

theorem specials_value (cstar csub : Option Config) (ctopo : Option TopoMap)
    (cdiv : Option DividerDecl) (source : Option (List String)) (s : Store) :
    (applyConfigSpecials cstar csub ctopo cdiv source s).attrs.value
      = s.attrs.value :=
  (specials_attrs cstar csub ctopo cdiv source s).2.2.1

theorem specials_leaf (cstar csub : Option Config) (ctopo : Option TopoMap)
    (cdiv : Option DividerDecl) (source : Option (List String)) (s : Store) :
    (applyConfigSpecials cstar csub ctopo cdiv source s).attrs.leaf
      = s.attrs.leaf :=
  (specials_attrs cstar csub ctopo cdiv source s).2.2.2.1

theorem specials_updater (cstar csub : Option Config) (ctopo : Option TopoMap)
    (cdiv : Option DividerDecl) (source : Option (List String)) (s : Store) :
    (applyConfigSpecials cstar csub ctopo cdiv source s).attrs.updater
      = s.attrs.updater :=
  (specials_attrs cstar csub ctopo cdiv source s).2.2.2.2.1

theorem specials_subE (cstar csub : Option Config) (ctopo : Option TopoMap)
    (cdiv : Option DividerDecl) (source : Option (List String)) (s : Store) :
    (applyConfigSpecials cstar csub ctopo cdiv source s).attrs.subschema.isEmpty
      = (s.attrs.subschema.isEmpty
          && (match cstar with | some q => q.isEmpty | none => true)
          && (match csub with | some q => q.isEmpty | none => true)) :=
  (specials_attrs cstar csub ctopo cdiv source s).2.2.2.2.2

theorem applyLeafDefault_inner (cleaf : LeafCfg) (s : Store) :
    (applyLeafDefault cleaf s).inner = s.inner := by
  rcases cleaf with ⟨cd, cv, cu, cp, ce, cs⟩
  exact (applyLeafDefault_attrs cd cv cu cp ce cs s).1

theorem applyLeafDefault_value (cleaf : LeafCfg) (s : Store) :
    (applyLeafDefault cleaf s).attrs.value = s.attrs.value := by
  rcases cleaf with ⟨cd, cv, cu, cp, ce, cs⟩
  exact (applyLeafDefault_attrs cd cv cu cp ce cs s).2.1

theorem applyLeafDefault_leaf (cleaf : LeafCfg) (s : Store) :
    (applyLeafDefault cleaf s).attrs.leaf = s.attrs.leaf := by
  rcases cleaf with ⟨cd, cv, cu, cp, ce, cs⟩
  exact (applyLeafDefault_attrs cd cv cu cp ce cs s).2.2.1

theorem applyLeafDefault_updater (cleaf : LeafCfg) (s : Store) :
    (applyLeafDefault cleaf s).attrs.updater = s.attrs.updater := by
  rcases cleaf with ⟨cd, cv, cu, cp, ce, cs⟩
  exact (applyLeafDefault_attrs cd cv cu cp ce cs s).2.2.2.1

theorem applyLeafDefault_subschema (cleaf : LeafCfg) (s : Store) :
    (applyLeafDefault cleaf s).attrs.subschema = s.attrs.subschema := by
  rcases cleaf with ⟨cd, cv, cu, cp, ce, cs⟩
  exact (applyLeafDefault_attrs cd cv cu cp ce cs s).2.2.2.2.1

theorem applyLeafDefault_default (cleaf : LeafCfg) (s : Store) :
    (applyLeafDefault cleaf s).attrs.default
      = (match cleaf.default with
         | some d => check_default s.attrs.default d
         | none => s.attrs.default) := by
  rcases cleaf with ⟨cd, cv, cu, cp, ce, cs⟩
  exact (applyLeafDefault_attrs cd cv cu cp ce cs s).2.2.2.2.2

theorem applyLeafRest_inner (cleaf : LeafCfg) (cch : ConfigMap)
    (source : Option (List String)) (s : Store) :
    (applyLeafRest cleaf cch source s).inner = s.inner :=
  (applyLeafRest_attrs cleaf cch source s).1

theorem applyLeafRest_value (cleaf : LeafCfg) (cch : ConfigMap)
    (source : Option (List String)) (s : Store) :
    (applyLeafRest cleaf cch source s).attrs.value = s.attrs.value :=
  (applyLeafRest_attrs cleaf cch source s).2.1

theorem applyLeafRest_default (cleaf : LeafCfg) (cch : ConfigMap)
    (source : Option (List String)) (s : Store) :
    (applyLeafRest cleaf cch source s).attrs.default = s.attrs.default :=
  (applyLeafRest_attrs cleaf cch source s).2.2.1

theorem applyLeafRest_leaf (cleaf : LeafCfg) (cch : ConfigMap)
    (source : Option (List String)) (s : Store) :
    (applyLeafRest cleaf cch source s).attrs.leaf = s.attrs.leaf :=
  (applyLeafRest_attrs cleaf cch source s).2.2.2.1

theorem applyLeafRest_subschema (cleaf : LeafCfg) (cch : ConfigMap)
    (source : Option (List String)) (s : Store) :
    (applyLeafRest cleaf cch source s).attrs.subschema = s.attrs.subschema :=
  (applyLeafRest_attrs cleaf cch source s).2.2.2.2.1

theorem applyLeafRest_updater (cleaf : LeafCfg) (cch : ConfigMap)
    (source : Option (List String)) (s : Store) :
    (applyLeafRest cleaf cch source s).attrs.updater
      = some (cleaf.updater.getD (s.attrs.updater.getD .accumulate)) :=
  (applyLeafRest_attrs cleaf cch source s).2.2.2.2.2

theorem applyConfigLeaf_guard (cleaf : LeafCfg) (cch : ConfigMap)
    (source : Option (List String)) (s t : Store)
    (h : applyConfigLeaf cleaf cch source s = (t, none)) :
    s.inner.isNil = true := by
  cases hni : s.inner.isNil with
  | true => rfl
  | false =>
    have hcond : (!s.inner.isNil) = true := by rw [hni]; rfl
    rw [applyConfigLeaf, if_pos hcond] at h
    exact Option.noConfusion (congrArg Prod.snd h)

theorem applyConfigLeaf_none_val (cd cv : Option PVal) (cu : Option UpdaterName)
    (cp : Option PMap) (ce : Option Bool) (cs : Option SerializerName)
    (cch : ConfigMap) (source : Option (List String)) (a : Attrs) (t : Store)
    (h : applyConfigLeaf ⟨cd, cv, cu, cp, ce, cs⟩ cch source (.mk a .nil)
      = (t, none)) :
    ∀ v, cv = some v → check_value a.value v = .ok v := by
  intro v hv
  subst hv
  rw [applyConfigLeaf, if_neg (by simp [Store.inner, StoreMap.isNil])] at h
  cases cs <;>
    (dsimp only [Store.modifyAttrs] at h
     rw [applyLeafDefault_value] at h
     dsimp only [Store.attrs] at h
     cases hcv : check_value a.value v with
     | error e =>
       rw [hcv] at h
       exact Option.noConfusion (congrArg Prod.snd h)
     | ok x =>
       exact congrArg Except.ok (check_value_ok_eq a.value v x hcv))

theorem applyConfigLeaf_run (cd cv : Option PVal) (cu : Option UpdaterName)
    (cp : Option PMap) (ce : Option Bool) (cs : Option SerializerName)
    (cch : ConfigMap) (source : Option (List String)) (a : Attrs)
    (hval : ∀ v, cv = some v → check_value a.value v = .ok v) :
    ∃ t, applyConfigLeaf ⟨cd, cv, cu, cp, ce, cs⟩ cch source (.mk a .nil)
        = (t, none)
      ∧ t.inner = .nil
      ∧ t.attrs.leaf = true
      ∧ t.attrs.subschema = a.subschema
      ∧ t.attrs.default = (cd.map (check_default a.default)).getD a.default
      ∧ t.attrs.value = cv.getD a.value
      ∧ t.attrs.updater = some (cu.getD (a.updater.getD .accumulate)) := by
  rw [applyConfigLeaf, if_neg (by simp [Store.inner, StoreMap.isNil])]
  cases cv with
  | none =>
    cases cs <;> cases cd <;>
      (refine ⟨_, rfl, ?_, ?_, ?_, ?_, ?_, ?_⟩ <;>
        simp only [applyLeafRest_inner, applyLeafRest_value, applyLeafRest_default,
          applyLeafRest_leaf, applyLeafRest_subschema, applyLeafRest_updater,
          applyLeafDefault_inner, applyLeafDefault_value, applyLeafDefault_leaf,
          applyLeafDefault_subschema, applyLeafDefault_updater,
          applyLeafDefault_default] <;>
        rfl)
  | some v =>
    have hcv : check_value a.value v = .ok v := hval v rfl
    cases cs <;> cases cd <;> cases v <;>
      (dsimp only []
       rw [applyLeafDefault_value]
       simp only [modifyAttrs_attrs]
       rw [show check_value (Store.mk a StoreMap.nil).attrs.value _ = _ from hcv]
       refine ⟨_, rfl, ?_, ?_, ?_, ?_, ?_, ?_⟩ <;>
         simp only [applyLeafRest_inner, applyLeafRest_value, applyLeafRest_default,
           applyLeafRest_leaf, applyLeafRest_subschema, applyLeafRest_updater,
           applyLeafDefault_inner, applyLeafDefault_value, applyLeafDefault_leaf,
           applyLeafDefault_subschema, applyLeafDefault_updater,
           applyLeafDefault_default, modifyAttrs_attrs, modifyAttrs_inner] <;>
         rfl)

theorem StoreMap.isNil_eq (m : StoreMap) (h : m.isNil = true) : m = .nil := by
  cases m with
  | nil => rfl
  | cons k c rest => cases h

theorem and_absorb_right (x y z : Bool) :
    ((((x && y) && z) && y) && z) = ((x && y) && z) := by
  cases x <;> cases y <;> cases z <;> rfl

theorem cfgEqS_fields2 (x y : Store) (h : cfgEqS x y = true) :
    x.attrs.default = y.attrs.default ∧ x.attrs.value = y.attrs.value
      ∧ x.attrs.updater = y.attrs.updater ∧ x.attrs.leaf = y.attrs.leaf
      ∧ x.attrs.subschema.isEmpty = y.attrs.subschema.isEmpty
      ∧ cfgEqM x.inner y.inner = true := by
  rcases x with ⟨a, i⟩
  rcases y with ⟨a', i'⟩
  exact cfgEqS_fields a a' i i' h

theorem cfgEqS_intro (x y : Store)
    (h1 : x.attrs.default = y.attrs.default)
    (h2 : x.attrs.value = y.attrs.value)
    (h3 : x.attrs.updater = y.attrs.updater)
    (h4 : x.attrs.leaf = y.attrs.leaf)
    (h5 : x.attrs.subschema.isEmpty = y.attrs.subschema.isEmpty)
    (h6 : cfgEqM x.inner y.inner = true) : cfgEqS x y = true := by
  rcases x with ⟨a, i⟩
  rcases y with ⟨a', i'⟩
  rw [cfgEqS]
  dsimp only [Store.attrs, Store.inner] at h1 h2 h3 h4 h5 h6
  simp [h1, h2, h3, h4, h5, h6]

theorem Store.eta2 (s : Store) : s = .mk s.attrs s.inner := by
  cases s
  rfl

theorem branchGuard_congr (cch : ConfigMap) (x y : Store)
    (h : x.attrs.leaf = y.attrs.leaf) : branchGuard cch x = branchGuard cch y := by
  rw [branchGuard.eq_def, branchGuard.eq_def, h]

theorem applyConfigS_unfold (cstar csub : Option Config) (ctopo : Option TopoMap)
    (cdiv : Option DividerDecl) (cleaf : LeafCfg) (cch : ConfigMap)
    (source : Option (List String)) (s : Store) :
    applyConfigS (.mk cstar csub ctopo cdiv cleaf cch) source s
      = (if cleaf.present = true then
          applyConfigLeaf cleaf cch source
            (applyConfigSpecials cstar csub ctopo cdiv source s)
        else if branchGuard cch (applyConfigSpecials cstar csub ctopo cdiv source s)
                  = true then
          (applyConfigSpecials cstar csub ctopo cdiv source s,
            some "trying to assign create inner for leaf node")
        else
          match applyConfigCM cch source
              (((applyConfigSpecials cstar csub ctopo cdiv source s).modifyAttrs
                fun a => { a with value := .pnone }).inner) with
          | (sm, e) =>
            (((applyConfigSpecials cstar csub ctopo cdiv source s).modifyAttrs
                fun a => { a with value := .pnone }).withInner sm, e)) := by
  rw [applyConfigS.eq_def]
  rfl

theorem idemS_leaf (cstar csub : Option Config) (ctopo : Option TopoMap)
    (cdiv : Option DividerDecl) (cd cvv : Option PVal) (cu : Option UpdaterName)
    (cp : Option PMap) (ce : Option Bool) (csz : Option SerializerName)
    (cch : ConfigMap) (source : Option (List String)) (s t s' : Store)
    (hWFd : (match cd with | some v => PVal.WF v | none => true) = true)
    (hWFv : (match cvv with | some v => PVal.WF v | none => true) = true)
    (hp : LeafCfg.present ⟨cd, cvv, cu, cp, ce, csz⟩ = true)
    (h1 : applyConfigS (.mk cstar csub ctopo cdiv ⟨cd, cvv, cu, cp, ce, csz⟩ cch)
        source s = (t, none))
    (hEq : cfgEqS s' t = true) :
    ∃ t', applyConfigS (.mk cstar csub ctopo cdiv ⟨cd, cvv, cu, cp, ce, csz⟩ cch)
        source s' = (t', none) ∧ cfgEqS t' t = true := by
  rw [applyConfigS_unfold, if_pos hp] at h1
  have h2 : applyConfigLeaf ⟨cd, cvv, cu, cp, ce, csz⟩ cch source
      (applyConfigSpecials cstar csub ctopo cdiv source s) = (t, none) := h1
  have hnilA : (applyConfigSpecials cstar csub ctopo cdiv source s).inner.isNil
      = true := applyConfigLeaf_guard _ _ _ _ _ h2
  have hAeq : applyConfigSpecials cstar csub ctopo cdiv source s
      = .mk (applyConfigSpecials cstar csub ctopo cdiv source s).attrs .nil := by
    conv_lhs => rw [Store.eta2 (applyConfigSpecials cstar csub ctopo cdiv source s)]
    rw [StoreMap.isNil_eq _ hnilA]
  rw [hAeq] at h2
  have hval1 := applyConfigLeaf_none_val cd cvv cu cp ce csz cch source _ t h2
  obtain ⟨t0, hrun, htI, htL, htS, htD, htV, htU⟩ :=
    applyConfigLeaf_run cd cvv cu cp ce csz cch source
      (applyConfigSpecials cstar csub ctopo cdiv source s).attrs hval1
  rw [hrun] at h2
  have ht0 : t0 = t := congrArg Prod.fst h2
  subst ht0
  obtain ⟨e1, e2, e3, e4, e5, e6⟩ := cfgEqS_fields2 s' t0 hEq
  have hs'I : s'.inner = .nil := by
    rw [htI] at e6
    exact cfgEqM_nil_right _ e6
  have hnilB : (applyConfigSpecials cstar csub ctopo cdiv source s').inner.isNil
      = true := by
    rw [specials_inner, hs'I]
    rfl
  have hBeq : applyConfigSpecials cstar csub ctopo cdiv source s'
      = .mk (applyConfigSpecials cstar csub ctopo cdiv source s').attrs .nil := by
    conv_lhs => rw [Store.eta2 (applyConfigSpecials cstar csub ctopo cdiv source s')]
    rw [StoreMap.isNil_eq _ hnilB]
  have hval2 : ∀ v, cvv = some v →
      check_value (applyConfigSpecials cstar csub ctopo cdiv source s').attrs.value v
        = .ok v := by
    intro v hv
    subst hv
    rw [specials_value, e2, htV]
    exact check_value_self v hWFv
  obtain ⟨t', hrun2, htI2, htL2, htS2, htD2, htV2, htU2⟩ :=
    applyConfigLeaf_run cd cvv cu cp ce csz cch source
      (applyConfigSpecials cstar csub ctopo cdiv source s').attrs hval2
  refine ⟨t', ?_, ?_⟩
  · rw [applyConfigS_unfold, if_pos hp, hBeq]
    exact hrun2
  · apply cfgEqS_intro
    · have hBd : (applyConfigSpecials cstar csub ctopo cdiv source s').attrs.default
          = t0.attrs.default := by
        rw [specials_default]
        exact e1
      rw [htD2, hBd, htD]
      cases cd with
      | none => rfl
      | some d => exact check_default_idem _ d hWFd
    · rw [htV2, htV]
      cases cvv with
      | some v => rfl
      | none =>
        show (applyConfigSpecials cstar csub ctopo cdiv source s').attrs.value
          = (applyConfigSpecials cstar csub ctopo cdiv source s).attrs.value
        rw [specials_value, e2, htV]
        rfl
    · rw [htU2]
      rw [specials_updater, e3, htU]
      cases cu with
      | some u => rfl
      | none => rfl
    · rw [htL2, htL]
    · rw [htS2, specials_subE, e5, htS, specials_subE]
      exact and_absorb_right _ _ _
    · rw [htI2, htI]
      exact cfgEqM_refl .nil

mutual

theorem idemS (c : Config) (source : Option (List String)) (s t : Store)
    (hWF : ConfigWF c = true) (h1 : applyConfigS c source s = (t, none))
    (s' : Store) (hEq : cfgEqS s' t = true) :
    ∃ t', applyConfigS c source s' = (t', none) ∧ cfgEqS t' t = true :=
  match c with
  | .mk cstar csub ctopo cdiv ⟨cd, cvv, cu, cp, ce, csz⟩ cch => by
    rw [ConfigWF] at hWF
    simp only [Bool.and_eq_true] at hWF
    cases hp : LeafCfg.present ⟨cd, cvv, cu, cp, ce, csz⟩ with
    | true =>
      exact idemS_leaf cstar csub ctopo cdiv cd cvv cu cp ce csz cch source s t s'
        hWF.1.1.1 hWF.1.1.2 hp h1 hEq
    | false =>
      rw [applyConfigS_unfold, if_neg (by simp [hp])] at h1
      cases hg : branchGuard cch (applyConfigSpecials cstar csub ctopo cdiv source s) with
      | true =>
        rw [if_pos hg] at h1
        exact Option.noConfusion (congrArg Prod.snd h1)
      | false =>
        rw [if_neg (by simp [hg])] at h1
        cases hcm : applyConfigCM cch source
            (((applyConfigSpecials cstar csub ctopo cdiv source s).modifyAttrs
              fun a => { a with value := .pnone }).inner) with
        | mk tm e =>
          rw [hcm] at h1
          have hT : ((applyConfigSpecials cstar csub ctopo cdiv source s).modifyAttrs
              fun a => { a with value := .pnone }).withInner tm = t :=
            congrArg Prod.fst h1
          have he : e = none := congrArg Prod.snd h1
          subst he
          have hTa : t.attrs
              = { (applyConfigSpecials cstar csub ctopo cdiv source s).attrs
                  with value := .pnone } := by
            rw [← hT, withInner_attrs, modifyAttrs_attrs]
          have hTi : t.inner = tm := by
            rw [← hT, withInner_inner]
          obtain ⟨E1, E2, E3, E4, E5, E6⟩ := cfgEqS_fields2 s' t hEq
          have hlf : t.attrs.leaf
              = (applyConfigSpecials cstar csub ctopo cdiv source s).attrs.leaf := by
            rw [hTa]
          have hg2 : branchGuard cch
              (applyConfigSpecials cstar csub ctopo cdiv source s') = false := by
            rw [branchGuard_congr cch _ (applyConfigSpecials cstar csub ctopo cdiv source s)
              (by rw [specials_leaf, E4, hlf])]
            exact hg
          have hEqI : cfgEqM s'.inner tm = true := by
            rw [hTi] at E6
            exact E6
          obtain ⟨tm', hrun2, hM⟩ := idemM cch source _ tm hWF.2
            (of_decide_eq_true hWF.1.2) hcm s'.inner hEqI
          refine ⟨((applyConfigSpecials cstar csub ctopo cdiv source s').modifyAttrs
              fun a => { a with value := .pnone }).withInner tm', ?_, ?_⟩
          · rw [applyConfigS_unfold, if_neg (by simp [hp]), if_neg (by simp [hg2])]
            have hsB2i : (((applyConfigSpecials cstar csub ctopo cdiv source s').modifyAttrs
                fun a => { a with value := .pnone }).inner) = s'.inner := by
              rw [modifyAttrs_inner, specials_inner]
            rw [hsB2i, hrun2]
          · apply cfgEqS_intro
            · rw [withInner_attrs, modifyAttrs_attrs]
              show (applyConfigSpecials cstar csub ctopo cdiv source s').attrs.default
                = t.attrs.default
              rw [specials_default]
              exact E1
            · rw [withInner_attrs, modifyAttrs_attrs]
              show PVal.pnone = t.attrs.value
              rw [hTa]
            · rw [withInner_attrs, modifyAttrs_attrs]
              show (applyConfigSpecials cstar csub ctopo cdiv source s').attrs.updater
                = t.attrs.updater
              rw [specials_updater]
              exact E3
            · rw [withInner_attrs, modifyAttrs_attrs]
              show (applyConfigSpecials cstar csub ctopo cdiv source s').attrs.leaf
                = t.attrs.leaf
              rw [specials_leaf]
              exact E4
            · rw [withInner_attrs, modifyAttrs_attrs]
              show (applyConfigSpecials cstar csub ctopo cdiv source s').attrs.subschema.isEmpty
                = t.attrs.subschema.isEmpty
              rw [specials_subE, E5]
              have htsub : t.attrs.subschema.isEmpty
                  = (applyConfigSpecials cstar csub ctopo cdiv
                      source s).attrs.subschema.isEmpty := by
                rw [hTa]
              rw [htsub, specials_subE]
              exact and_absorb_right _ _ _
            · rw [withInner_inner, hTi]
              exact hM

theorem idemM (cm : ConfigMap) (source : Option (List String))
    (sm tm : StoreMap) (hWF : ConfigWFM cm = true) (hnd : cm.keys.Nodup)
    (h1 : applyConfigCM cm source sm = (tm, none))
    (sm' : StoreMap) (hEqM : cfgEqM sm' tm = true) :
    ∃ tm', applyConfigCM cm source sm' = (tm', none) ∧ cfgEqM tm' tm = true :=
  match cm with
  | .nil => by
    rw [applyConfigCM] at h1
    cases h1
    exact ⟨sm', by rw [applyConfigCM], hEqM⟩
  | .cons k cc rest => by
    rw [ConfigWFM] at hWF
    simp only [Bool.and_eq_true] at hWF
    rw [ConfigMap.keys] at hnd
    have hnd' := List.nodup_cons.mp hnd
    rw [applyConfigCM] at h1
    cases hl : StoreMap.lookup sm k with
    | none =>
      rw [hl] at h1
      cases hc : applyConfigS cc source emptyStore with
      | mk child e =>
        rw [hc] at h1
        cases e with
        | some e0 => exact Option.noConfusion (congrArg Prod.snd h1)
        | none =>
          have h2 : applyConfigCM rest source (sm.setKey k child) = (tm, none) := h1
          have hfr : tm.lookup k = (sm.setKey k child).lookup k :=
            applyConfigCM_frame rest source _ tm k h2 hnd'.1
          rw [StoreMap.lookup_setKey_self] at hfr
          obtain ⟨x, hx, hxc⟩ := cfgEqM_lookup_some sm' tm k child hEqM hfr
          obtain ⟨x', hxrun, hx'c⟩ := idemS cc source emptyStore child hWF.1 hc x hxc
          have hEq2 : cfgEqM (sm'.setKey k x') tm = true :=
            cfgEqM_setKey sm' tm k x' child hEqM hfr hx'c
          obtain ⟨tm', hrest, hMrest⟩ := idemM rest source (sm.setKey k child) tm
            hWF.2 hnd'.2 h2 (sm'.setKey k x') hEq2
          refine ⟨tm', ?_, hMrest⟩
          rw [applyConfigCM, hx]
          show (match applyConfigS cc source x with
                | (child', some e) => (sm'.setKey k child', some e)
                | (child', none) => applyConfigCM rest source (sm'.setKey k child'))
              = (tm', none)
          rw [hxrun]
          exact hrest
    | some child0 =>
      rw [hl] at h1
      cases hc : applyConfigS cc source child0 with
      | mk child e =>
        cases e with
        | some e0 =>
          simp only [hc] at h1
          exact Option.noConfusion (congrArg Prod.snd h1)
        | none =>
          simp only [hc] at h1
          have h2 : applyConfigCM rest source (sm.setKey k child) = (tm, none) := h1
          have hfr : tm.lookup k = (sm.setKey k child).lookup k :=
            applyConfigCM_frame rest source _ tm k h2 hnd'.1
          rw [StoreMap.lookup_setKey_self] at hfr
          obtain ⟨x, hx, hxc⟩ := cfgEqM_lookup_some sm' tm k child hEqM hfr
          obtain ⟨x', hxrun, hx'c⟩ := idemS cc source child0 child hWF.1 hc x hxc
          have hEq2 : cfgEqM (sm'.setKey k x') tm = true :=
            cfgEqM_setKey sm' tm k x' child hEqM hfr hx'c
          obtain ⟨tm', hrest, hMrest⟩ := idemM rest source (sm.setKey k child) tm
            hWF.2 hnd'.2 h2 (sm'.setKey k x') hEq2
          refine ⟨tm', ?_, hMrest⟩
          rw [applyConfigCM, hx]
          show (match applyConfigS cc source x with
                | (child', some e) => (sm'.setKey k child', some e)
                | (child', none) => applyConfigCM rest source (sm'.setKey k child'))
              = (tm', none)
          rw [hxrun]
          exact hrest

end

mutual

theorem cfgEq_getValueS (ex : Bool) (x y : Store) (h : cfgEqS x y = true) :
    getValue ex x = getValue ex y :=
  match x, y with
  | .mk a i, .mk a' i' => by
    obtain ⟨h1, h2, h3, h4, h5, h6⟩ := cfgEqS_fields a a' i i' h
    cases i with
    | nil =>
      cases i' with
      | cons k' c' rest' => simp [cfgEqM] at h6
      | nil =>
        show (if !a.subschema.isEmpty then PVal.pdict .nil else a.value)
          = (if !a'.subschema.isEmpty then PVal.pdict .nil else a'.value)
        rw [h5, h2]
    | cons k c rest =>
      cases i' with
      | nil => simp [cfgEqM] at h6
      | cons k' c' rest' =>
        show PVal.pdict (getValueMap ex (.cons k c rest))
          = PVal.pdict (getValueMap ex (.cons k' c' rest'))
        rw [cfgEq_getValueM ex (.cons k c rest) (.cons k' c' rest') h6]

theorem cfgEq_getValueM (ex : Bool) (m m' : StoreMap) (h : cfgEqM m m' = true) :
    getValueMap ex m = getValueMap ex m' :=
  match m, m' with
  | .nil, .nil => rfl
  | .nil, .cons k' c' rest' => by simp [cfgEqM] at h
  | .cons k c rest, .nil => by simp [cfgEqM] at h
  | .cons k c rest, .cons k' c' rest' => by
    rw [cfgEqM] at h
    simp only [Bool.and_eq_true, beq_iff_eq] at h
    obtain ⟨⟨hk, hc⟩, hr⟩ := h
    subst hk
    have hval : c.attrs.value = c'.attrs.value := (cfgEqS_fields2 c c' hc).2.1
    rw [getValueMap, getValueMap, hval]
    split
    · exact cfgEq_getValueM ex rest rest' hr
    · rw [cfgEq_getValueS ex c c' hc, cfgEq_getValueM ex rest rest' hr]

end

/-- C7: `apply_config` is idempotent on resolved values — when a
well-formed config applies cleanly to a node, re-applying the same config
to the result succeeds and leaves the node's `get_value` unchanged. -/
theorem apply_config_idempotent (c : Config) (source : Option (List String))
    (s t : Store) (hWF : ConfigWF c = true)
    (h1 : applyConfigS c source s = (t, none)) :
    ∃ t', applyConfigS c source t = (t', none)
      ∧ getValue false t' = getValue false t := by
  obtain ⟨t', h2, hE⟩ := idemS c source s t hWF h1 t (cfgEqS_refl t)
  exact ⟨t', h2, cfgEq_getValueS false t' t hE⟩

/-- C7 witness: re-applying `{'a': {'_default': 5}, 'b': {'_value': 'x'}}`
to the store it configured succeeds and preserves the resolved value. -/
theorem apply_config_idempotent_witness :
    ConfigWF c7cfg = true
    ∧ applyConfigS c7cfg none emptyStore = (c7store, none)
    ∧ ∃ t', applyConfigS c7cfg none c7store = (t', none)
        ∧ getValue false t' = getValue false c7store :=
  ⟨rfl, rfl, apply_config_idempotent c7cfg none emptyStore c7store rfl rfl⟩
